import Mathlib

/-!
Verification of the UC course-PDF extraction engine.

This development gives a shallow embedding, over `List Char`, of the text
parsing code of the repository (`src/pdf_extractor/parsers.py`,
`src/pdf_extractor/bibliography_cleaner.py`, `src/pdf_extractor/models.py`)
and proves properties of that embedding.

Conventions of the embedding:
* Python strings are `List Char`; Python regular expressions are rendered as
  explicit matching functions with the exact backtracking behaviour of the
  source pattern (greedy quantifiers, leftmost match, non-overlapping
  `findall`, `re.match` anchoring, `re.MULTILINE` line anchoring).
* Python floats are rationals (`ℚ`).  Every float comparison the embedded
  code performs (strategy confidences against `0.9` and against each other,
  integer-valued percentage sums against `100.0 ± 0.1`) gives the same
  answer on the IEEE doubles computed by the source and on the rationals
  computed here, so this is faithful for all reachable values.
* Python dicts (which preserve insertion order and overwrite in place) are
  association lists with an `upsert` operation.
* Character predicates (`[A-Z]`, `str.isupper`, `\w`) are modelled on their
  ASCII behaviour, plus the specific accented letters appearing in the
  source patterns.
-/

set_option maxHeartbeats 1000000
set_option maxRecDepth 4000

abbrev LC := List Char

/-- Python `\s` whitespace (the characters relevant to `str.strip` and `\s`). -/
def isWsCh (c : Char) : Bool :=
  c == ' ' || c == '\t' || c == '\n' || c == '\r' || c == Char.ofNat 11 || c == Char.ofNat 12

def isDigitCh (c : Char) : Bool := '0' ≤ c && c ≤ '9'

def isAsciiUpper (c : Char) : Bool := 'A' ≤ c && c ≤ 'Z'

def isAsciiLower (c : Char) : Bool := 'a' ≤ c && c ≤ 'z'

/-- Python `str.strip()`: drop whitespace from both ends. -/
def stripWs (l : LC) : LC :=
  ((l.dropWhile isWsCh).reverse.dropWhile isWsCh).reverse

/-- Python `str.strip(chars)`: drop the given characters from both ends. -/
def stripSet (cs : List Char) (l : LC) : LC :=
  ((l.dropWhile (cs.contains ·)).reverse.dropWhile (cs.contains ·)).reverse

/-- Python `str.split(sep)` for a single separator character (keeps empty pieces). -/
def splitCh (sep : Char) : LC → List LC
  | [] => [[]]
  | c :: t =>
    let r := splitCh sep t
    if c == sep then [] :: r
    else
      match r with
      | [] => [[c]]
      | h :: t2 => (c :: h) :: t2

/-- Python `str.split()` with no argument: split on whitespace runs, no empty pieces. -/
def splitWsAux : LC → LC → List LC
  | [], acc => if acc.isEmpty then [] else [acc.reverse]
  | c :: t, acc =>
    if isWsCh c then
      if acc.isEmpty then splitWsAux t [] else acc.reverse :: splitWsAux t []
    else splitWsAux t (c :: acc)

def splitWs (l : LC) : List LC := splitWsAux l []

/-- Join a list of words with single spaces (Python `' '.join`). -/
def joinSpace (ws : List LC) : LC := List.intercalate [' '] ws

/-- Insertion-order-preserving dictionary write, as in a Python dict:
an existing key keeps its position and gets the new value, a new key is
appended at the end. -/
def upsert {β : Type} (k : LC) (v : β) : List (LC × β) → List (LC × β)
  | [] => [(k, v)]
  | (k', v') :: t => if k' = k then (k', v) :: t else (k', v') :: upsert k v t

/-- First value stored under a key in an association list. -/
def alookup {β : Type} (k : LC) : List (LC × β) → Option β
  | [] => none
  | (k', v) :: t => if k' = k then some v else alookup k t

/-! ## models.py: `Evaluacion` (claim C8) -/

/-- Embedding of the `Evaluacion` dataclass of `models.py`: an item-label to
percentage mapping, the verification flag and the stored sum. -/
structure Evaluacion where
  items : List (LC × ℚ)
  total_verificado : Bool
  suma_porcentajes : ℚ
deriving DecidableEq

def sumItems (l : List (LC × ℚ)) : ℚ := l.foldl (fun a p => a + p.2) 0

/-- Python `abs` on rationals, written so that the kernel can evaluate it. -/
def ratAbs (q : ℚ) : ℚ := if q < 0 then -q else q

theorem ratAbs_eq_abs (q : ℚ) : ratAbs q = |q| := by
  unfold ratAbs
  by_cases h : q < 0
  · rw [if_pos h, abs_of_neg h]
  · rw [if_neg h, abs_of_nonneg (le_of_not_lt h)]

/-- Embedding of `Evaluacion.verificar_total`: store the sum of the item
values and set the flag exactly when the sum is within 0.1 of 100.0. -/
def verificar_total (e : Evaluacion) : Evaluacion :=
  let s := sumItems e.items
  ⟨e.items, decide (ratAbs (s - 100.0) < 0.1), s⟩

/-! ## bibliography_cleaner.py: basic author extraction (claim C10) -/

/-- Word test `^[A-Z][a-z]+,?$`: a capitalised word, optionally ending in a
comma (used by `_extract_basic_authors`). -/
def matchSurnameWord (w : LC) : Bool :=
  match w with
  | [] => false
  | c :: rest =>
    let ls := rest.takeWhile isAsciiLower
    let r2 := rest.drop ls.length
    isAsciiUpper c && decide (1 ≤ ls.length) && (decide (r2 = []) || decide (r2 = [',']))

/-- Word test `^[A-Z]\.?$`: a bare initial, optionally followed by a period. -/
def matchInitialWord (w : LC) : Bool :=
  match w with
  | [c] => isAsciiUpper c
  | [c, d] => isAsciiUpper c && d == '.'
  | _ => false

/-- Python `word.rstrip(',')`. -/
def rstripComma (w : LC) : LC := (w.reverse.dropWhile (· == ',')).reverse

/-- The word loop of `_extract_basic_authors`: accumulates `(authors, current)`
exactly as the Python `for word in words` loop does, stopping (`break`) at the
first word that fits none of the three shapes. -/
def basicAuthorsLoop : List LC → List LC × List LC → List LC × List LC
  | [], st => st
  | w :: rest, (authors, current) =>
    if matchSurnameWord w then
      basicAuthorsLoop rest
        ((if current.isEmpty then authors else authors ++ [joinSpace current]),
         [rstripComma w])
    else if matchInitialWord w then
      basicAuthorsLoop rest (authors, current ++ [w])
    else
      match w with
      | [] => (authors, current)
      | c :: _ =>
        if isAsciiUpper c && decide (w.length < 15) then
          basicAuthorsLoop rest (authors, current ++ [w])
        else (authors, current)

/-- Embedding of `BibliographyCleaner._extract_basic_authors`: scan the first
10 whitespace-separated words, grouping name-like words, and keep at most 3
authors. -/
def extract_basic_authors (text : LC) : List LC :=
  let words := (splitWs text).take 10
  let (authors, current) := basicAuthorsLoop words ([], [])
  (if current.isEmpty then authors else authors ++ [joinSpace current]).take 3

/-! ## bibliography_cleaner.py: `_parse_authors` (shared author-list parser) -/

/-- Generic splitting loop of `re.split`: scan left to right, at each position
try the separator matcher (which returns the remainder after a non-empty
separator match); on a match flush the current piece.  `fuel` is always
called with `length + 1`; every separator consumes at least one character,
so the fuel never runs out. -/
def splitGo (matchSep : LC → Option LC) : Nat → LC → LC → List LC
  | 0, l, acc => [acc.reverse ++ l]
  | _ + 1, [], acc => [acc.reverse]
  | fuel + 1, c :: t, acc =>
    match matchSep (c :: t) with
    | some rest => acc.reverse :: splitGo matchSep fuel rest []
    | none => splitGo matchSep fuel t (c :: acc)

def splitBySep (matchSep : LC → Option LC) (l : LC) : List LC :=
  splitGo matchSep (l.length + 1) l []

/-- Separator `\s+and\s+` (case sensitive, greedy whitespace). -/
def matchAndSep (l : LC) : Option LC :=
  match l with
  | [] => none
  | c :: _ =>
    if isWsCh c then
      match l.dropWhile isWsCh with
      | 'a' :: 'n' :: 'd' :: r2 =>
        match r2 with
        | d :: _ => if isWsCh d then some (r2.dropWhile isWsCh) else none
        | [] => none
      | _ => none
    else none

/-- Separator `\s*,\s*(?=[A-Z])`: a comma with optional surrounding whitespace,
followed (without consuming it) by a capital letter. -/
def matchCommaCapSep (l : LC) : Option LC :=
  match l.dropWhile isWsCh with
  | ',' :: r =>
    let r2 := r.dropWhile isWsCh
    match r2 with
    | c :: _ => if isAsciiUpper c then some r2 else none
    | [] => none
  | _ => none

/-- Separator `\s*;\s*`. -/
def matchSemiSep (l : LC) : Option LC :=
  match l.dropWhile isWsCh with
  | ';' :: r => some (r.dropWhile isWsCh)
  | _ => none

/-- Separator `\s*&\s*`. -/
def matchAmpSep (l : LC) : Option LC :=
  match l.dropWhile isWsCh with
  | '&' :: r => some (r.dropWhile isWsCh)
  | _ => none

/-- Does `\s*\(\d{4}\)` match at the head of `l`?  If so, return the length
of `\s*\(\d{4}\).*` (the match runs to the next newline or the end). -/
def parenYearMatchLen (l : LC) : Option Nat :=
  let w := (l.takeWhile isWsCh).length
  match l.drop w with
  | '(' :: r =>
    if ((r.take 4).all isDigitCh && decide ((r.take 4).length = 4)) then
      match r.drop 4 with
      | ')' :: r2 => some (w + 6 + (r2.takeWhile (· ≠ '\n')).length)
      | _ => none
    else none
  | _ => none

/-- Substitution `re.sub(r'\s*\(\d{4}\).*', '', author)`: at the leftmost
occurrence of a parenthesised 4-digit year, drop everything up to the end of
the line.  Fuel as in `splitGo`. -/
def removeParenYearGo : Nat → LC → LC
  | 0, l => l
  | _ + 1, [] => []
  | fuel + 1, c :: t =>
    match parenYearMatchLen (c :: t) with
    | some n => removeParenYearGo fuel ((c :: t).drop n)
    | none => c :: removeParenYearGo fuel t

def removeParenYear (l : LC) : LC := removeParenYearGo (l.length + 1) l

/-- Substitution `re.sub(r'^(Dr|Prof|Mr|Ms|Mrs)\.?\s*', '', author, re.IGNORECASE)`.
The `re.IGNORECASE` constant is passed as the `count` argument in the source,
so the pattern is applied case sensitively; being anchored, it fires at most
once.  Alternatives are tried in order, so `Mr` wins over `Mrs`. -/
def removeHonorific (l : LC) : LC :=
  let tryAlt : LC → Option LC := fun pre =>
    if pre.isPrefixOf l then some (l.drop pre.length) else none
  let rest :=
    match tryAlt ['D', 'r'] with
    | some r => some r
    | none =>
      match tryAlt ['P', 'r', 'o', 'f'] with
      | some r => some r
      | none =>
        match tryAlt ['M', 'r'] with
        | some r => some r
        | none =>
          match tryAlt ['M', 's'] with
          | some r => some r
          | none => tryAlt ['M', 'r', 's']
  match rest with
  | none => l
  | some r =>
    let r2 := match r with | '.' :: r' => r' | _ => r
    r2.dropWhile isWsCh

/-- Embedding of `BibliographyCleaner._parse_authors`: strip, split on the
four separator patterns cumulatively, clean each fragment, and keep at most 5
authors. -/
def parse_authors (authors_str : LC) : List LC :=
  if authors_str.isEmpty then []
  else
    let s := stripSet [' ', '.', ',', ';'] authors_str
    let l0 := [s]
    let l1 := (l0.map (splitBySep matchAndSep)).flatten
    let l2 := (l1.map (splitBySep matchCommaCapSep)).flatten
    let l3 := (l2.map (splitBySep matchSemiSep)).flatten
    let l4 := (l3.map (splitBySep matchAmpSep)).flatten
    let cleaned := l4.foldl
      (fun acc a =>
        let a1 := stripSet [' ', '.', ',', ';', '(', ')'] a
        if decide (2 < a1.length) && !(a1.all isDigitCh) then
          let a2 := removeParenYear a1
          let a3 := removeHonorific a2
          if a3.isEmpty then acc else acc ++ [a3]
        else acc)
      []
    cleaned.take 5

/-! ## Theorems for claims C8 and C10 -/

/-- C8: after `verificar_total` runs, the `total_verificado` flag is true if
and only if the sum of the stored percentage weights lies within 0.1 of
100.0; in particular items summing to 30+30+40 give `true` and items summing
to 30+30+30 give `false`. -/
theorem verificar_total_sums_to_100 :
    (∀ e : Evaluacion,
      ((verificar_total e).total_verificado = true ↔
        |sumItems e.items - 100| < 1/10))
    ∧ (verificar_total
        ⟨[(("Controles").data, 30), (("Proyecto").data, 30),
          (("Examen").data, 40)], false, 0⟩).total_verificado = true
    ∧ (verificar_total
        ⟨[(("Controles").data, 30), (("Proyecto").data, 30),
          (("Examen").data, 30)], false, 0⟩).total_verificado = false := by
  have hiff : ∀ e : Evaluacion,
      ((verificar_total e).total_verificado = true ↔
        |sumItems e.items - 100| < 1/10) := by
    intro e
    show (decide (ratAbs (sumItems e.items - 100.0) < 0.1) = true ↔ _)
    rw [decide_eq_true_eq, ratAbs_eq_abs]
    norm_num
  refine ⟨hiff, ?_, ?_⟩
  · rw [hiff]
    norm_num [sumItems, List.foldl_cons, List.foldl_nil, abs_sub_lt_iff]
  · rw [Bool.eq_false_iff]
    intro hx
    rw [hiff] at hx
    norm_num [sumItems, List.foldl_cons, List.foldl_nil, abs_sub_lt_iff] at hx

/-- C10: the last-resort basic author extraction returns at most 3 authors
for every input text, while the shared author-list parser `_parse_authors`
allows up to 5. -/
theorem extract_basic_authors_at_most_three :
    (∀ text : LC, (extract_basic_authors text).length ≤ 3)
    ∧ (∀ s : LC, (parse_authors s).length ≤ 5) := by
  constructor
  · intro text
    unfold extract_basic_authors
    simp only [List.length_take]
    omega
  · intro s
    unfold parse_authors
    by_cases h : s.isEmpty
    · simp [h]
    · rw [if_neg (by simp [h])]
      simp only [List.length_take]
      omega

/-! ## parsers.py: bibliography entry segmentation (claim C4) -/

/-- Test `^[A-Z][a-z]+,` of `_is_new_entry_start`: a capitalised word directly
followed by a comma. -/
def matchAuthorShape1 (l : LC) : Bool :=
  match l with
  | [] => false
  | c :: rest =>
    let ls := rest.takeWhile isAsciiLower
    isAsciiUpper c && decide (1 ≤ ls.length) &&
      (match rest.drop ls.length with
       | ',' :: _ => true
       | _ => false)

/-- Test `^[A-Z][a-z]+,\s+[A-Z]\.` of `_is_new_entry_start`. -/
def matchAuthorShape2 (l : LC) : Bool :=
  match l with
  | [] => false
  | c :: rest =>
    let ls := rest.takeWhile isAsciiLower
    isAsciiUpper c && decide (1 ≤ ls.length) &&
      (match rest.drop ls.length with
       | ',' :: r2 =>
         let w := r2.takeWhile isWsCh
         decide (1 ≤ w.length) &&
           (match r2.drop w.length with
            | u :: '.' :: _ => isAsciiUpper u
            | _ => false)
       | _ => false)

/-- Test `re.search(r'[\.\d{4}]\s*$', current_entry.strip())` of
`_is_new_entry_start`.  The bracket expression is a character class, so it
matches a single character out of period, digit, `{` (`\x7b`) or `}` (`\x7d`);
on the stripped buffer the `\s*$` anchor forces that character to be the last
one. -/
def entryLooksComplete (cur : LC) : Bool :=
  match (stripWs cur).getLast? with
  | some c => c == '.' || isDigitCh c || c == Char.ofNat 123 || c == Char.ofNat 125
  | none => false

/-- Embedding of `BibliographyParser._is_new_entry_start`. -/
def is_new_entry_start (line cur : LC) : Bool :=
  if cur.isEmpty then true
  else if matchAuthorShape1 line then true
  else if matchAuthorShape2 line then true
  else entryLooksComplete cur

/-- The accumulation loop of `BibliographyParser._parse_bibliography_entries`
(lines 446-469), at the level of the raw multi-line entry buffers it flushes;
the downstream `_parse_single_entry` call is applied to each buffer
afterwards. -/
def segmentLoop : List LC → LC → List LC → List LC
  | [], cur, acc => if cur.isEmpty then acc else acc ++ [cur]
  | line :: rest, cur, acc =>
    if is_new_entry_start line cur then
      segmentLoop rest line (if cur.isEmpty then acc else acc ++ [cur])
    else segmentLoop rest (cur ++ ' ' :: line) acc

/-- Entry segmentation of a bibliography subsection: strip the lines, drop the
blank ones, and accumulate buffers with `is_new_entry_start`. -/
def segment_entries (text : LC) : List LC :=
  let lines := ((splitCh '\n' text).map stripWs).filter (fun l => !l.isEmpty)
  segmentLoop lines [] []

/-- The trigger condition exactly as claim C4 words it (for comparison with
the code): the buffer so far ends in a sentence-terminal punctuation mark or
in a 4-digit year at end-of-string. -/
def claimedBufferComplete (cur : LC) : Bool :=
  let s := stripWs cur
  (match s.getLast? with
   | some c => c == '.' || c == '!' || c == '?'
   | none => false)
  || (decide (4 ≤ s.length) && (s.drop (s.length - 4)).all isDigitCh)

/-- The new-entry condition exactly as claim C4 words it. -/
def claimedNewEntryStart (line cur : LC) : Bool :=
  cur.isEmpty || matchAuthorShape1 line || matchAuthorShape2 line ||
    claimedBufferComplete cur

/-- C4 (divergence witness): on the line `continued text` with accumulated
buffer `see chapter 7`, the code starts a new entry - the buffer ends in the
single digit `7`, which the character class `[\.\d{4}]` accepts - although
the buffer ends neither in sentence-terminal punctuation nor in a 4-digit
year, so the claim's condition is false there. -/
theorem is_new_entry_start_single_digit_bug :
    is_new_entry_start ("continued text").data ("see chapter 7").data = true
    ∧ claimedNewEntryStart ("continued text").data ("see chapter 7").data = false := by
  decide

/-! ## parsers.py: section headers and spans

Each section extractor of `parsers.py` isolates its section with a regex of
the shape `HEADER\n(.*?)(?=MARKER|$)` under `re.IGNORECASE | re.DOTALL`
(`re.search`).  Headers and markers are fixed words separated by `\s*`/`\s+`;
they are modelled as token lists and matched deterministically (each literal
starts with a non-whitespace character, so greedy whitespace consumption is
exact).  The lazy group with the lookahead makes the section run from the end
of the first header match to the first position at or after it where the
marker matches, or to the end of the document. -/

inductive Tok where
  | lit (s : LC)
  | cls (cs : LC)
  | ws0
  | ws1
  | wsNl

/-- Case folding for the characters appearing in the source patterns
(`re.IGNORECASE`): ASCII letters plus the accented vowels of the Spanish
headers. -/
def lowerCh (c : Char) : Char :=
  if isAsciiUpper c then Char.ofNat (c.toNat + 32)
  else if c = 'Á' then 'á'
  else if c = 'É' then 'é'
  else if c = 'Í' then 'í'
  else if c = 'Ó' then 'ó'
  else if c = 'Ú' then 'ú'
  else if c = 'Ñ' then 'ñ'
  else c

def chEq (a b : Char) : Bool := lowerCh a == lowerCh b

/-- Match a literal (case-insensitively), character by character. -/
def matchLit : LC → LC → Option LC
  | [], l => some l
  | _ :: _, [] => none
  | p :: ps, c :: cs => if chEq p c then matchLit ps cs else none

/-- Index just after the last newline of the leading whitespace run, if the
run contains one (the backtracking semantics of a trailing `\s*\n`). -/
def wsNlEnd (l : LC) : Option Nat :=
  let w := l.takeWhile isWsCh
  let k := (w.reverse.takeWhile (· ≠ '\n')).length
  if k = w.length then none else some (w.length - k)

def matchTok : Tok → LC → Option LC
  | Tok.lit s, l => matchLit s l
  | Tok.cls cs, l =>
    match l with
    | [] => none
    | c :: t => if cs.any (fun p => chEq p c) then some t else none
  | Tok.ws0, l => some (l.dropWhile isWsCh)
  | Tok.ws1, l =>
    match l with
    | [] => none
    | c :: _ => if isWsCh c then some (l.dropWhile isWsCh) else none
  | Tok.wsNl, l =>
    match wsNlEnd l with
    | some n => some (l.drop n)
    | none => none

def matchToks : List Tok → LC → Option LC
  | [], l => some l
  | t :: ts, l =>
    match matchTok t l with
    | none => none
    | some r => matchToks ts r

/-- Position of the leftmost match of a token sequence (`re.search`). -/
def findFirstTok (ts : List Tok) : LC → Option Nat
  | [] => if (matchToks ts []).isSome then some 0 else none
  | l@(_ :: r) =>
    if (matchToks ts l).isSome then some 0
    else (findFirstTok ts r).map (· + 1)

/-- Start and end offsets of the span `HEADER\n(.*?)(?=MARKER|$)` captures:
the span of group 1 of the section regex. -/
def sectionSpan (header marker : List Tok) (l : LC) : Option (Nat × Nat) :=
  match findFirstTok header l with
  | none => none
  | some h =>
    match matchToks header (l.drop h) with
    | none => none
    | some rem =>
      let s := l.length - rem.length
      match findFirstTok marker rem with
      | some j => some (s, s + j)
      | none => some (s, l.length)

/-- The text the span captures (group 1 of the section regex). -/
def sectionSlice (header marker : List Tok) (l : LC) : Option LC :=
  match findFirstTok header l with
  | none => none
  | some h =>
    match matchToks header (l.drop h) with
    | none => none
    | some rem =>
      match findFirstTok marker rem with
      | some j => some (rem.take j)
      | none => some rem

/-! ## Token lists for the section regexes of parsers.py -/

/-- The lookahead marker `II\s*\.\s*RESULTADOS` ending the description span. -/
def markerII : List Tok :=
  [Tok.lit ("II").data, Tok.ws0, Tok.lit ['.'], Tok.ws0, Tok.lit ("RESULTADOS").data]

/-- Header `I\s*\.\s*DESCRIPCI[OÓ]N\s+DEL\s+CURSO\s*\n` of `extract_descripcion`. -/
def descHeader : List Tok :=
  [Tok.lit ("I").data, Tok.ws0, Tok.lit ['.'], Tok.ws0, Tok.lit ("DESCRIPCI").data,
   Tok.cls ("OÓ").data, Tok.lit ("N").data, Tok.ws1, Tok.lit ("DEL").data, Tok.ws1,
   Tok.lit ("CURSO").data, Tok.wsNl]

/-- The lookahead marker `III\s*\.\s*CONTENIDOS` ending the outcomes span. -/
def markerIII : List Tok :=
  [Tok.lit ("III").data, Tok.ws0, Tok.lit ['.'], Tok.ws0, Tok.lit ("CONTENIDOS").data]

/-- Header `II\s*\.\s*RESULTADOS\s+DE\s+APRENDIZAJE\s*\n` of
`extract_resultados_aprendizaje`, literally extending the marker `markerII`. -/
def resHeader : List Tok :=
  markerII ++ [Tok.ws1, Tok.lit ("DE").data, Tok.ws1, Tok.lit ("APRENDIZAJE").data, Tok.wsNl]

/-- The lookahead marker `IV\s*\.\s*ESTRATEGIAS` ending the contents span. -/
def markerIV : List Tok :=
  [Tok.lit ("IV").data, Tok.ws0, Tok.lit ['.'], Tok.ws0, Tok.lit ("ESTRATEGIAS").data]

/-- Header `III\s*\.\s*CONTENIDOS\s*\n` of `extract_contenidos`. -/
def contHeader : List Tok := markerIII ++ [Tok.wsNl]

/-- The lookahead marker `V\s*\.\s*ESTRATEGIAS` ending the methodology span. -/
def markerV : List Tok :=
  [Tok.lit ("V").data, Tok.ws0, Tok.lit ['.'], Tok.ws0, Tok.lit ("ESTRATEGIAS").data]

/-- Header `IV\s*\.\s*ESTRATEGIAS\s+METODOL[OÓ]GICAS\s*\n` of `extract_metodologias`. -/
def metHeader : List Tok :=
  markerIV ++ [Tok.ws1, Tok.lit ("METODOL").data, Tok.cls ("OÓ").data,
               Tok.lit ("GICAS").data, Tok.wsNl]

/-- The lookahead marker `VI\s*\.\s*BIBLIOGRAF` ending the evaluation span. -/
def markerVI : List Tok :=
  [Tok.lit ("VI").data, Tok.ws0, Tok.lit ['.'], Tok.ws0, Tok.lit ("BIBLIOGRAF").data]

/-- Header `V\s*\.\s*ESTRATEGIAS\s+EVALUATIVAS\s*\n` of `extract_evaluacion`. -/
def evalHeader : List Tok :=
  markerV ++ [Tok.ws1, Tok.lit ("EVALUATIVAS").data, Tok.wsNl]

/-- Header `VI\s*\.\s*BIBLIOGRAFIA` of `_extract_bibliography_section`. -/
def bibHeader : List Tok :=
  [Tok.lit ("VI").data, Tok.ws0, Tok.lit ['.'], Tok.ws0, Tok.lit ("BIBLIOGRAFIA").data]

/-- The four institutional end patterns of `_extract_bibliography_section`,
in the order the source tries them (the first pattern that matches anywhere
wins, regardless of position). -/
def bibEndPatterns : List (List Tok) :=
  [[Tok.lit ("PONTIFICIA UNIVERSIDAD").data],
   [Tok.lit ("FACULTAD DE").data],
   [Tok.lit ("ESCUELA DE").data],
   [Tok.lit ("INSTITUTO DE").data]]

/-- First positions of the section headers (used to state span ordering). -/
def headerPosDescripcion (l : LC) : Option Nat := findFirstTok descHeader l
def headerPosResultados (l : LC) : Option Nat := findFirstTok resHeader l
def headerPosContenidos (l : LC) : Option Nat := findFirstTok contHeader l
def headerPosMetodologias (l : LC) : Option Nat := findFirstTok metHeader l
def headerPosEvaluacion (l : LC) : Option Nat := findFirstTok evalHeader l
def headerPosBibliografia (l : LC) : Option Nat := findFirstTok bibHeader l

/-- Offsets of the description span (`extract_descripcion`, lines 95-99). -/
def span_descripcion (l : LC) : Option (Nat × Nat) := sectionSpan descHeader markerII l

/-- Offsets of the learning-outcomes span (`extract_resultados_aprendizaje`). -/
def span_resultados (l : LC) : Option (Nat × Nat) := sectionSpan resHeader markerIII l

/-- Offsets of the contents span (`extract_contenidos`). -/
def span_contenidos (l : LC) : Option (Nat × Nat) := sectionSpan contHeader markerIV l

/-- Offsets of the methodology span (`extract_metodologias`). -/
def span_metodologias (l : LC) : Option (Nat × Nat) := sectionSpan metHeader markerV l

/-- Offsets of the evaluation span (`extract_evaluacion`). -/
def span_evaluacion (l : LC) : Option (Nat × Nat) := sectionSpan evalHeader markerVI l

/-- Offsets of the bibliography section (`_extract_bibliography_section`,
lines 391-415): it starts at the start of the header match (`bib_start.start()`)
and runs to the cut made by the first institutional pattern that matches, or
to the end of the document. -/
def span_bibliografia (l : LC) : Option (Nat × Nat) :=
  match findFirstTok bibHeader l with
  | none => none
  | some h =>
    let rest := l.drop h
    let cut := (bibEndPatterns.map (fun p => findFirstTok p rest)).foldl
      (fun acc j => match acc with
                    | some _ => acc
                    | none => j) none
    match cut with
    | some j => some (h, h + j)
    | none => some (h, l.length)

/-! ## parsers.py: `extract_contenidos` (claims C1 and C9) -/

/-- Maximal leading digit run (`\d+` at the start of a `re.match`). -/
def takeDigits (l : LC) : Option (LC × LC) :=
  let d := l.takeWhile isDigitCh
  if d.isEmpty then none else some (d, l.drop d.length)

/-- Capture of a trailing `\s*([^\n]+)`: greedy whitespace, backtracking so
that the group still gets at least one non-newline character.  Tries the
whitespace length from `j` downwards. -/
def tailCaptureGo (l : LC) : Nat → Option LC
  | 0 =>
    match l with
    | [] => none
    | c :: _ => if c ≠ '\n' then some (l.takeWhile (· ≠ '\n')) else none
  | j + 1 =>
    match l.drop (j + 1) with
    | [] => tailCaptureGo l j
    | c :: _ =>
      if c ≠ '\n' then some ((l.drop (j + 1)).takeWhile (· ≠ '\n'))
      else tailCaptureGo l j

def tailCapture (l : LC) : Option LC := tailCaptureGo l (l.takeWhile isWsCh).length

/-- A literal `.` in a pattern. -/
def expectDot : LC → Option LC
  | '.' :: r => some r
  | _ => none

/-- Pattern `^(\d+)\s*\.\s*([^\n]+)` of `extract_contenidos` (returns the
two groups). -/
def pattern1Match (l : LC) : Option (LC × LC) :=
  (takeDigits l).bind fun dr =>
    (expectDot (dr.2.dropWhile isWsCh)).bind fun r2 =>
      (tailCapture r2).map fun g => (dr.1, g)

/-- Pattern `^(\d+\.\d+)\s*\.\s*([^\n]+)` of `extract_contenidos`. -/
def pattern2Match (l : LC) : Option (LC × LC) :=
  (takeDigits l).bind fun dr1 =>
    (expectDot dr1.2).bind fun r2 =>
      (takeDigits r2).bind fun dr2 =>
        (expectDot (dr2.2.dropWhile isWsCh)).bind fun r4 =>
          (tailCapture r4).map fun g => (dr1.1 ++ '.' :: dr2.1, g)

/-- Pattern `^(\d+\.\d+\.\d+)\s*\.\s*([^\n]+)` of `extract_contenidos`. -/
def pattern3Match (l : LC) : Option (LC × LC) :=
  (takeDigits l).bind fun dr1 =>
    (expectDot dr1.2).bind fun r2 =>
      (takeDigits r2).bind fun dr2 =>
        (expectDot dr2.2).bind fun r4 =>
          (takeDigits r4).bind fun dr3 =>
            (expectDot (dr3.2.dropWhile isWsCh)).bind fun r6 =>
              (tailCapture r6).map fun g => (dr1.1 ++ '.' :: dr2.1 ++ '.' :: dr3.1, g)

/-- Embedding of the `ContenidoItem` dataclass of `models.py`. -/
inductive ContenidoItem where
  | mk (numero : LC) (titulo : LC) (descripcion : Option LC)
       (subsecciones : List (LC × ContenidoItem))

def ContenidoItem.numero : ContenidoItem → LC
  | ContenidoItem.mk n _ _ _ => n

def ContenidoItem.titulo : ContenidoItem → LC
  | ContenidoItem.mk _ t _ _ => t

def ContenidoItem.subsecciones : ContenidoItem → List (LC × ContenidoItem)
  | ContenidoItem.mk _ _ _ s => s

/-- State of the line loop of `extract_contenidos`: the dictionary built so
far plus the `current_main` and `current_sub` cursors. -/
structure CState where
  contenidos : List (LC × ContenidoItem)
  currentMain : Option LC
  currentSub : Option LC

/-- Python truthiness of the optional cursor strings. -/
def truthy : Option LC → Bool
  | none => false
  | some s => !s.isEmpty

/-- Add an item under `subsecciones` of the entry at key `m` (the assignment
`contenidos[main_num].subsecciones[numero] = item`). -/
def addSub (m numero : LC) (item : ContenidoItem) :
    List (LC × ContenidoItem) → List (LC × ContenidoItem)
  | [] => []
  | (k, v) :: t =>
    if k = m then
      (k, ContenidoItem.mk v.numero v.titulo
            (match v with | ContenidoItem.mk _ _ d _ => d)
            (upsert numero item v.subsecciones)) :: t
    else (k, v) :: addSub m numero item t

/-- Add an item two levels down (the assignment
`contenidos[main_num].subsecciones[sub_num].subsecciones[numero] = item`). -/
def addSubSub (m sub numero : LC) (item : ContenidoItem) :
    List (LC × ContenidoItem) → List (LC × ContenidoItem)
  | [] => []
  | (k, v) :: t =>
    if k = m then
      (k, ContenidoItem.mk v.numero v.titulo
            (match v with | ContenidoItem.mk _ _ d _ => d)
            (addSub sub numero item v.subsecciones)) :: t
    else (k, v) :: addSubSub m sub numero item t

/-- Membership of a key in the dictionary (`main_num in contenidos`). -/
def hasKey (k : LC) (l : List (LC × ContenidoItem)) : Bool :=
  l.any (fun p => p.1 = k)

/-- The body of the line loop of `extract_contenidos` (lines 179-215): strip
the line, try the three numbering patterns in order (only the first match is
used), and branch on the number of dot-separated parts exactly as the source
does. -/
def processLine (st : CState) (line0 : LC) : CState :=
  let line := stripWs line0
  if line.isEmpty then st
  else
    let m :=
      match pattern1Match line with
      | some r => some r
      | none =>
        match pattern2Match line with
        | some r => some r
        | none => pattern3Match line
    match m with
    | none => st
    | some (numero, titulo0) =>
      let titulo := stripWs titulo0
      let parts := splitCh '.' numero
      if parts.length = 1 then
        ⟨upsert numero (ContenidoItem.mk numero titulo none []) st.contenidos,
         some numero, none⟩
      else if parts.length = 2 && truthy st.currentMain then
        match parts with
        | mainNum :: _ =>
          if hasKey mainNum st.contenidos then
            ⟨addSub mainNum numero (ContenidoItem.mk numero titulo none []) st.contenidos,
             st.currentMain, some numero⟩
          else st
        | [] => st
      else if parts.length = 3 && truthy st.currentMain && truthy st.currentSub then
        match parts with
        | p1 :: p2 :: _ =>
          let subNum := p1 ++ '.' :: p2
          if hasKey p1 st.contenidos &&
             (match alookup p1 st.contenidos with
              | some v => hasKey subNum v.subsecciones
              | none => false) then
            ⟨addSubSub p1 subNum numero (ContenidoItem.mk numero titulo none []) st.contenidos,
             st.currentMain, st.currentSub⟩
          else st
        | _ => st
      else st

/-- Embedding of `ContentParser.extract_contenidos`: isolate section III,
strip it, split it into lines and run the line loop. -/
def extract_contenidos (text : LC) : List (LC × ContenidoItem) :=
  match sectionSlice contHeader markerIV text with
  | none => []
  | some sec =>
    ((splitCh '\n' (stripWs sec)).foldl processLine ⟨[], none, none⟩).contenidos

/-! ## Dead-branch analysis of the three numbering patterns

The depth-1 pattern `^(\d+)\s*\.\s*([^\n]+)` is tried first and matches every
line the depth-2 and depth-3 patterns match (the second digit run of
`\d+\.\d+` is a non-empty non-newline tail for group 2), so the nested
branches of the line loop can never run. -/

theorem digit_not_ws {c : Char} (h : isDigitCh c = true) : isWsCh c = false := by
  cases hw : isWsCh c
  · rfl
  · exfalso
    unfold isWsCh at hw
    simp only [Bool.or_eq_true, beq_iff_eq] at hw
    rcases hw with ((((hw | hw) | hw) | hw) | hw) | hw <;> subst hw <;>
      exact absurd h (by decide)

theorem digit_ne_nl {c : Char} (h : isDigitCh c = true) : c ≠ '\n' := by
  intro he
  subst he
  exact absurd h (by decide)

theorem digit_ne_dot {c : Char} (h : isDigitCh c = true) : c ≠ '.' := by
  intro he
  subst he
  exact absurd h (by decide)

theorem expectDot_eq_some {l r : LC} (h : expectDot l = some r) : l = '.' :: r := by
  unfold expectDot at h
  split at h
  · rename_i r'
    cases h
    rfl
  · exact absurd h (by simp)

theorem takeDigits_eq_some {l : LC} {dr : LC × LC} (h : takeDigits l = some dr) :
    dr.1 = l.takeWhile isDigitCh ∧ ¬ (l.takeWhile isDigitCh).isEmpty = true := by
  unfold takeDigits at h
  by_cases he : (l.takeWhile isDigitCh).isEmpty
  · rw [if_pos he] at h
    exact absurd h (by simp)
  · rw [if_neg he] at h
    cases h
    exact ⟨rfl, he⟩

theorem takeDigits_head {l : LC} (h : (takeDigits l).isSome) :
    ∃ c t, l = c :: t ∧ isDigitCh c = true := by
  unfold takeDigits at h
  cases l with
  | nil => simp at h
  | cons c t =>
    by_cases hc : isDigitCh c
    · exact ⟨c, t, rfl, hc⟩
    · rw [List.takeWhile_cons] at h
      simp [hc] at h

theorem tailCapture_isSome_of_digit_head {c : Char} {t : LC} (h : isDigitCh c = true) :
    (tailCapture (c :: t)).isSome := by
  unfold tailCapture
  have hw : (c :: t).takeWhile isWsCh = [] := by
    rw [List.takeWhile_cons]
    simp [digit_not_ws h]
  rw [hw]
  simp only [List.length_nil]
  unfold tailCaptureGo
  simp [digit_ne_nl h]

theorem pattern1_isSome_of_inner {l d1 r2 : LC}
    (h1 : takeDigits l = some (d1, '.' :: r2)) (h3 : (takeDigits r2).isSome) :
    (pattern1Match l).isSome := by
  obtain ⟨c, t, rfl, hc⟩ := takeDigits_head h3
  have htc := tailCapture_isSome_of_digit_head (t := t) hc
  rw [Option.isSome_iff_exists] at htc
  obtain ⟨g, hg⟩ := htc
  have hd : (('.' :: c :: t).dropWhile isWsCh) = '.' :: c :: t := by
    rw [List.dropWhile_cons]
    simp [show isWsCh '.' = false from by decide]
  rw [Option.isSome_iff_exists]
  refine ⟨(d1, g), ?_⟩
  simp only [pattern1Match, Option.bind_eq_some, Option.map_eq_some']
  exact ⟨(d1, '.' :: c :: t), h1, c :: t, by rw [hd]; rfl, g, hg, rfl⟩

theorem pattern1_isSome_of_pattern2 {l : LC} {p : LC × LC}
    (h : pattern2Match l = some p) : (pattern1Match l).isSome := by
  simp only [pattern2Match, Option.bind_eq_some, Option.map_eq_some'] at h
  obtain ⟨⟨d1, r1⟩, h1, r2, h2, ⟨d2, r3⟩, h3, _, _, _, _, _⟩ := h
  have hr1 : r1 = '.' :: r2 := expectDot_eq_some h2
  subst hr1
  exact pattern1_isSome_of_inner h1 (by simp [h3])

theorem pattern1_isSome_of_pattern3 {l : LC} {p : LC × LC}
    (h : pattern3Match l = some p) : (pattern1Match l).isSome := by
  simp only [pattern3Match, Option.bind_eq_some, Option.map_eq_some'] at h
  obtain ⟨⟨d1, r1⟩, h1, r2, h2, ⟨d2, r3⟩, h3, _, _, _, _, _, _, _, _, _⟩ := h
  have hr1 : r1 = '.' :: r2 := expectDot_eq_some h2
  subst hr1
  exact pattern1_isSome_of_inner h1 (by simp [h3])

/-! ## Flatness invariant of the contents dictionary -/

/-- Invariant of the dictionary built by the line loop: every stored node is
keyed by its own number, the key is a non-empty run of digits, and the node
has no subsections. -/
def flatInv (m : List (LC × ContenidoItem)) : Prop :=
  ∀ p ∈ m, p.2.numero = p.1 ∧ p.1.all isDigitCh = true ∧ p.1 ≠ [] ∧
    p.2.subsecciones = []

theorem mem_upsert {β : Type} {k : LC} {v : β} {m : List (LC × β)} {p : LC × β}
    (h : p ∈ upsert k v m) : p ∈ m ∨ p = (k, v) := by
  induction m with
  | nil =>
    unfold upsert at h
    right
    simpa using h
  | cons q t ih =>
    obtain ⟨k', v'⟩ := q
    unfold upsert at h
    by_cases hk : k' = k
    · rw [if_pos hk] at h
      rcases List.mem_cons.mp h with h1 | h1
      · right
        rw [h1, hk]
      · left
        exact List.mem_cons_of_mem _ h1
    · rw [if_neg hk] at h
      rcases List.mem_cons.mp h with h1 | h1
      · left
        exact h1 ▸ List.mem_cons_self _ _
      · rcases ih h1 with h2 | h2
        · left
          exact List.mem_cons_of_mem _ h2
        · right
          exact h2

theorem splitCh_single {sep : Char} {l : LC} (h : ∀ c ∈ l, c ≠ sep) :
    splitCh sep l = [l] := by
  induction l with
  | nil => rfl
  | cons c t ih =>
    have hc : (c == sep) = false := by
      simp [h c (List.mem_cons_self c t)]
    have ih' := ih (fun c' hc' => h c' (List.mem_cons_of_mem _ hc'))
    simp [splitCh, hc, ih']

theorem pattern1_numero_digits {l numero titulo : LC}
    (h : pattern1Match l = some (numero, titulo)) :
    numero.all isDigitCh = true ∧ numero ≠ [] := by
  simp only [pattern1Match, Option.bind_eq_some, Option.map_eq_some'] at h
  obtain ⟨dr, h1, r2, _, g, _, hp⟩ := h
  obtain ⟨hd, hne⟩ := takeDigits_eq_some h1
  have hnum : numero = l.takeWhile isDigitCh := by
    rw [← hd]
    have := congrArg Prod.fst hp
    simpa using this.symm
  subst hnum
  constructor
  · rw [List.all_eq_true]
    intro c hc
    exact List.mem_takeWhile_imp hc
  · intro he
    rw [he] at hne
    exact hne (by simp)

theorem processLine_flat {st : CState} {line : LC} (h : flatInv st.contenidos) :
    flatInv (processLine st line).contenidos := by
  unfold processLine
  by_cases he : (stripWs line).isEmpty
  · simp only [he, if_true]
    exact h
  · simp only [he, if_false, Bool.false_eq_true]
    cases hp1 : pattern1Match (stripWs line) with
    | some r =>
      obtain ⟨numero, titulo0⟩ := r
      obtain ⟨hdig, hne⟩ := pattern1_numero_digits hp1
      have hnodot : ∀ c ∈ numero, c ≠ '.' := by
        intro c hc
        exact digit_ne_dot (by rw [List.all_eq_true] at hdig; exact hdig c hc)
      have hsplit : splitCh '.' numero = [numero] := splitCh_single hnodot
      simp only [hsplit, List.length_cons, List.length_nil]
      rw [if_pos trivial]
      intro p hp
      rcases mem_upsert hp with h1 | h1
      · exact h p h1
      · subst h1
        exact ⟨rfl, hdig, hne, rfl⟩
    | none =>
      cases hp2 : pattern2Match (stripWs line) with
      | some r =>
        have := pattern1_isSome_of_pattern2 hp2
        rw [hp1] at this
        simp at this
      | none =>
        cases hp3 : pattern3Match (stripWs line) with
        | some r =>
          have := pattern1_isSome_of_pattern3 hp3
          rw [hp1] at this
          simp at this
        | none =>
          simp only []
          exact h

theorem foldl_processLine_flat (lines : List LC) (st : CState)
    (h : flatInv st.contenidos) :
    flatInv ((lines.foldl processLine st).contenidos) := by
  induction lines generalizing st with
  | nil => exact h
  | cons l t ih => exact ih _ (processLine_flat h)

theorem extract_contenidos_flat (text : LC) : flatInv (extract_contenidos text) := by
  unfold extract_contenidos
  cases hs : sectionSlice contHeader markerIV text with
  | none =>
    intro p hp
    simp at hp
  | some sec =>
    exact foldl_processLine_flat _ _ (by intro p hp; simp at hp)

/-- C9 helper: the claim's child-numbering relation - the child number
extends the parent number by exactly one additional dotted segment. -/
def extendsByOneSegment (parent child : LC) : Prop :=
  ∃ seg : LC, seg ≠ [] ∧ '.' ∉ seg ∧ child = parent ++ '.' :: seg

/-- All depth-3 nodes of a contents dictionary (the grandchildren of the
top-level entries). -/
def depth3Nodes (m : List (LC × ContenidoItem)) : List (LC × ContenidoItem) :=
  (m.map (fun p => (p.2.subsecciones.map (fun q => q.2.subsecciones)).flatten)).flatten

/-- C1: for every input text, the tree built by `extract_contenidos` never
contains a depth-3 entry whose depth-2 parent was not previously registered;
in fact the depth-1 pattern shadows the nested patterns, so the list of
depth-3 entries is empty for every input, and in particular a line `2.1.1 X`
with no prior `2.1 Y` node appears nowhere in the resulting tree as a
depth-3 node. -/
theorem contenidos_no_orphan_depth3 :
    ∀ text : LC, depth3Nodes (extract_contenidos text) = [] := by
  intro text
  unfold depth3Nodes
  rw [List.flatten_eq_nil_iff]
  intro l hl
  rw [List.mem_map] at hl
  obtain ⟨p, hp, rfl⟩ := hl
  obtain ⟨-, -, -, hflat⟩ := extract_contenidos_flat text p hp
  rw [hflat]
  rfl

/-- C9: the tree returned by `extract_contenidos` is structurally
consistent - every node is stored under a key equal to its own `numero`
field, every top-level key contains no dot, and every child node's `numero`
extends its parent's `numero` by exactly one additional dotted segment (the
child conditions hold because the nested branches of the loop never run, so
no child node is ever stored). -/
theorem contenidos_structurally_consistent :
    ∀ text : LC, ∀ p ∈ extract_contenidos text,
      p.2.numero = p.1 ∧ '.' ∉ p.1 ∧
      ∀ q ∈ p.2.subsecciones,
        q.2.numero = q.1 ∧ extendsByOneSegment p.1 q.1 ∧
        ∀ r ∈ q.2.subsecciones,
          r.2.numero = r.1 ∧ extendsByOneSegment q.1 r.1 := by
  intro text p hp
  obtain ⟨hnum, hdig, -, hflat⟩ := extract_contenidos_flat text p hp
  refine ⟨hnum, ?_, ?_⟩
  · intro hdot
    rw [List.all_eq_true] at hdig
    exact digit_ne_dot (hdig '.' hdot) rfl
  · intro q hq
    rw [hflat] at hq
    simp at hq

/-- Witness instance of `contenidos_structurally_consistent` at a concrete
document with one top-level content node. -/
theorem contenidos_structurally_consistent_witness :
    (ContenidoItem.mk ("1").data ("Algoritmos").data none []).numero = ("1").data ∧
    '.' ∉ ("1").data ∧
    ∀ q ∈ (ContenidoItem.mk ("1").data ("Algoritmos").data none []).subsecciones,
      q.2.numero = q.1 ∧ extendsByOneSegment ("1").data q.1 ∧
      ∀ r ∈ q.2.subsecciones,
        r.2.numero = r.1 ∧ extendsByOneSegment q.1 r.1 := by
  have he : extract_contenidos ("III. CONTENIDOS\n1. Algoritmos").data =
      [(("1").data, ContenidoItem.mk ("1").data ("Algoritmos").data none [])] := by
    rfl
  exact contenidos_structurally_consistent ("III. CONTENIDOS\n1. Algoritmos").data
    ((("1").data, ContenidoItem.mk ("1").data ("Algoritmos").data none []))
    (by rw [he]; exact List.mem_cons_self _ _)

/-! ## Span ordering lemmas (claim C2) -/

theorem matchLit_append (a b l : LC) :
    matchLit (a ++ b) l = (matchLit a l).bind (matchLit b) := by
  induction a generalizing l with
  | nil => simp [matchLit]
  | cons c a ih =>
    cases l with
    | nil =>
      simp only [List.cons_append]
      rfl
    | cons d t =>
      simp only [List.cons_append]
      show (if chEq c d then matchLit (a ++ b) t else none) =
        ((if chEq c d then matchLit a t else none).bind (matchLit b))
      by_cases h : chEq c d
      · rw [if_pos h, if_pos h]
        exact ih t
      · rw [if_neg h, if_neg h]
        rfl

theorem matchToks_append (ts us : List Tok) (l : LC) :
    matchToks (ts ++ us) l = (matchToks ts l).bind (matchToks us) := by
  induction ts generalizing l with
  | nil => simp [matchToks]
  | cons t ts ih =>
    show (match matchTok t l with
          | none => none
          | some r => matchToks (ts ++ us) r) = _
    cases h : matchTok t l with
    | none => simp [matchToks, h]
    | some r => simp [matchToks, h, ih]

theorem matchLit_suffix {s l r : LC} (h : matchLit s l = some r) :
    ∃ k, r = l.drop k := by
  induction s generalizing l with
  | nil =>
    cases h
    exact ⟨0, rfl⟩
  | cons c s ih =>
    cases l with
    | nil => exact absurd h (by simp [matchLit])
    | cons d t =>
      unfold matchLit at h
      by_cases hc : chEq c d
      · rw [if_pos hc] at h
        obtain ⟨k, hk⟩ := ih h
        exact ⟨k + 1, by simpa using hk⟩
      · rw [if_neg hc] at h
        exact absurd h (by simp)

theorem dropWhile_is_drop (p : Char → Bool) (l : LC) :
    l.dropWhile p = l.drop (l.takeWhile p).length := by
  induction l with
  | nil => rfl
  | cons c t ih =>
    by_cases h : p c
    · simp [List.dropWhile_cons, List.takeWhile_cons, h, ih]
    · simp [List.dropWhile_cons, List.takeWhile_cons, h]

theorem matchTok_suffix {t : Tok} {l r : LC} (h : matchTok t l = some r) :
    ∃ k, r = l.drop k := by
  cases t with
  | lit s => exact matchLit_suffix h
  | cls cs =>
    cases l with
    | nil => exact absurd h (by simp [matchTok])
    | cons c t' =>
      rw [show matchTok (Tok.cls cs) (c :: t') =
            (if cs.any (fun p => chEq p c) then some t' else none) from rfl] at h
      by_cases hc : cs.any (fun p => chEq p c)
      · rw [if_pos hc] at h
        cases h
        exact ⟨1, rfl⟩
      · rw [if_neg hc] at h
        exact absurd h (by simp)
  | ws0 =>
    rw [show matchTok Tok.ws0 l = some (l.dropWhile isWsCh) from rfl] at h
    cases h
    exact ⟨_, dropWhile_is_drop isWsCh l⟩
  | ws1 =>
    cases l with
    | nil => exact absurd h (by simp [matchTok])
    | cons c t' =>
      rw [show matchTok Tok.ws1 (c :: t') =
            (if isWsCh c then some ((c :: t').dropWhile isWsCh) else none) from rfl] at h
      by_cases hc : isWsCh c
      · rw [if_pos hc] at h
        cases h
        exact ⟨_, dropWhile_is_drop isWsCh (c :: t')⟩
      · rw [if_neg hc] at h
        exact absurd h (by simp)
  | wsNl =>
    rw [show matchTok Tok.wsNl l =
          (match wsNlEnd l with
           | some n => some (l.drop n)
           | none => none) from rfl] at h
    cases hn : wsNlEnd l with
    | none => rw [hn] at h; exact absurd h (by simp)
    | some n =>
      rw [hn] at h
      cases h
      exact ⟨n, rfl⟩

theorem matchToks_suffix {ts : List Tok} {l r : LC} (h : matchToks ts l = some r) :
    ∃ k, r = l.drop k := by
  induction ts generalizing l with
  | nil =>
    cases h
    exact ⟨0, rfl⟩
  | cons t ts ih =>
    unfold matchToks at h
    cases hm : matchTok t l with
    | none => rw [hm] at h; exact absurd h (by simp)
    | some m =>
      rw [hm] at h
      obtain ⟨k1, hk1⟩ := matchTok_suffix hm
      obtain ⟨k2, hk2⟩ := ih h
      subst hk1
      rw [List.drop_drop] at hk2
      exact ⟨k1 + k2, hk2⟩

theorem findFirstTok_le {ts : List Tok} {l : LC} {n : Nat}
    (h : (matchToks ts (l.drop n)).isSome) :
    ∃ j, findFirstTok ts l = some j ∧ j ≤ n := by
  induction l generalizing n with
  | nil =>
    rw [List.drop_nil] at h
    refine ⟨0, ?_, Nat.zero_le n⟩
    unfold findFirstTok
    rw [if_pos h]
  | cons c t ih =>
    cases n with
    | zero =>
      rw [List.drop_zero] at h
      refine ⟨0, ?_, Nat.le_refl 0⟩
      unfold findFirstTok
      rw [if_pos h]
    | succ n =>
      by_cases h0 : (matchToks ts (c :: t)).isSome
      · refine ⟨0, ?_, Nat.zero_le _⟩
        unfold findFirstTok
        rw [if_pos h0]
      · rw [List.drop_succ_cons] at h
        obtain ⟨j, hj, hle⟩ := ih h
        refine ⟨j + 1, ?_, Nat.succ_le_succ hle⟩
        unfold findFirstTok
        rw [if_neg h0, hj]
        rfl

theorem findFirstTok_le_length {ts : List Tok} {l : LC} {j : Nat}
    (h : findFirstTok ts l = some j) : j ≤ l.length := by
  induction l generalizing j with
  | nil =>
    unfold findFirstTok at h
    by_cases hm : (matchToks ts []).isSome
    · rw [if_pos hm] at h
      cases h
      exact Nat.le_refl 0
    · rw [if_neg hm] at h
      exact absurd h (by simp)
  | cons c t ih =>
    unfold findFirstTok at h
    by_cases hm : (matchToks ts (c :: t)).isSome
    · rw [if_pos hm] at h
      cases h
      exact Nat.zero_le _
    · rw [if_neg hm] at h
      cases hj : findFirstTok ts t with
      | none => rw [hj] at h; exact absurd h (by simp)
      | some j' =>
        rw [hj] at h
        cases h
        exact Nat.succ_le_succ (ih hj)

theorem findFirstTok_spec {ts : List Tok} {l : LC} {j : Nat}
    (h : findFirstTok ts l = some j) : (matchToks ts (l.drop j)).isSome := by
  induction l generalizing j with
  | nil =>
    unfold findFirstTok at h
    by_cases hm : (matchToks ts []).isSome
    · rw [if_pos hm] at h
      cases h
      exact hm
    · rw [if_neg hm] at h
      exact absurd h (by simp)
  | cons c t ih =>
    unfold findFirstTok at h
    by_cases hm : (matchToks ts (c :: t)).isSome
    · rw [if_pos hm] at h
      cases h
      exact hm
    · rw [if_neg hm] at h
      cases hj : findFirstTok ts t with
      | none => rw [hj] at h; exact absurd h (by simp)
      | some j' =>
        rw [hj] at h
        cases h
        rw [List.drop_succ_cons]
        exact ih hj

theorem drop_span_start {l rem : LC} {m : Nat} (h : rem = l.drop m) :
    rem = l.drop (l.length - rem.length) := by
  subst h
  rw [List.length_drop]
  rcases Nat.le_total m l.length with hle | hle
  · rw [Nat.sub_sub_self hle]
  · rw [List.drop_eq_nil_of_le hle, Nat.sub_eq_zero_of_le hle, Nat.sub_zero,
        List.drop_length]

/-- Core ordering argument: if section A's span exists and section B's full
header first occurs at or after A's span start, then (because B's header
begins with A's end marker) A's span ends at or before B's header. -/
theorem sectionSpan_end_le
    (hA mA hB : List Tok)
    (himp : ∀ x : LC, (matchToks hB x).isSome → (matchToks mA x).isSome)
    {l : LC} {s1 e1 hb : Nat}
    (hsA : sectionSpan hA mA l = some (s1, e1))
    (hpB : findFirstTok hB l = some hb)
    (hge : s1 ≤ hb) :
    s1 ≤ e1 ∧ e1 ≤ hb := by
  unfold sectionSpan at hsA
  cases hfA : findFirstTok hA l with
  | none => rw [hfA] at hsA; exact absurd hsA (by simp)
  | some a0 =>
    rw [hfA] at hsA
    dsimp only at hsA
    cases hmA : matchToks hA (l.drop a0) with
    | none => rw [hmA] at hsA; exact absurd hsA (by simp)
    | some rem =>
      rw [hmA] at hsA
      dsimp only at hsA
      have hrem : rem = l.drop (l.length - rem.length) := by
        obtain ⟨k, hk⟩ := matchToks_suffix hmA
        rw [List.drop_drop] at hk
        exact drop_span_start hk
      have hAsome : (matchToks mA (l.drop hb)).isSome :=
        himp _ (findFirstTok_spec hpB)
      cases hmark : findFirstTok mA rem with
      | some j =>
        rw [hmark] at hsA
        dsimp only at hsA
        have hs1 : s1 = l.length - rem.length := by
          have := congrArg (fun o => Option.map Prod.fst o) hsA
          simpa using this.symm
        have he1 : e1 = s1 + j := by
          rw [hs1]
          have := congrArg (fun o => Option.map Prod.snd o) hsA
          simpa using this.symm
        have hrem2 : rem = l.drop s1 := by
          rw [hs1]
          exact hrem
        have heq : l.drop hb = rem.drop (hb - s1) := by
          rw [hrem2, List.drop_drop]
          congr 1
          omega
        rw [heq] at hAsome
        obtain ⟨j2, hj2, hle2⟩ := findFirstTok_le hAsome
        rw [hmark] at hj2
        have hjj : j = j2 := by
          injection hj2
        subst hjj
        constructor
        · omega
        · omega
      | none =>
        rw [hmark] at hsA
        dsimp only at hsA
        have hs1 : s1 = l.length - rem.length := by
          have := congrArg (fun o => Option.map Prod.fst o) hsA
          simpa using this.symm
        have hrem2 : rem = l.drop s1 := by
          rw [hs1]
          exact hrem
        have heq : l.drop hb = rem.drop (hb - s1) := by
          rw [hrem2, List.drop_drop]
          congr 1
          omega
        rw [heq] at hAsome
        obtain ⟨j2, hj2, -⟩ := findFirstTok_le hAsome
        rw [hmark] at hj2
        exact absurd hj2 (by simp)

/-- The span of a section starts at or after the position of its own header. -/
theorem sectionSpan_start_ge (hB mB : List Tok) {l : LC} {s2 e2 hb : Nat}
    (hsB : sectionSpan hB mB l = some (s2, e2))
    (hpB : findFirstTok hB l = some hb) :
    hb ≤ s2 := by
  unfold sectionSpan at hsB
  rw [hpB] at hsB
  dsimp only at hsB
  cases hmB : matchToks hB (l.drop hb) with
  | none => rw [hmB] at hsB; exact absurd hsB (by simp)
  | some rem2 =>
    rw [hmB] at hsB
    dsimp only at hsB
    obtain ⟨k, hk⟩ := matchToks_suffix hmB
    rw [List.drop_drop] at hk
    have hlen : rem2.length ≤ l.length - hb := by
      rw [hk, List.length_drop]
      omega
    have hble : hb ≤ l.length := findFirstTok_le_length hpB
    cases hmark : findFirstTok mB rem2 with
    | some j =>
      rw [hmark] at hsB
      have hs2 : s2 = l.length - rem2.length := by
        have := congrArg (fun o => Option.map Prod.fst o) hsB
        simpa using this.symm
      omega
    | none =>
      rw [hmark] at hsB
      have hs2 : s2 = l.length - rem2.length := by
        have := congrArg (fun o => Option.map Prod.fst o) hsB
        simpa using this.symm
      omega

/-- The bibliography span starts exactly at its header position. -/
theorem span_bibliografia_start {l : LC} {s2 e2 hb : Nat}
    (hsB : span_bibliografia l = some (s2, e2))
    (hpB : findFirstTok bibHeader l = some hb) :
    s2 = hb := by
  unfold span_bibliografia at hsB
  rw [hpB] at hsB
  dsimp only at hsB
  cases hcut : ((bibEndPatterns.map (fun p => findFirstTok p (l.drop hb))).foldl
      (fun acc j => match acc with
                    | some _ => acc
                    | none => j) none) with
  | some j =>
    rw [hcut] at hsB
    have := congrArg (fun o => Option.map Prod.fst o) hsB
    simpa using this.symm
  | none =>
    rw [hcut] at hsB
    have := congrArg (fun o => Option.map Prod.fst o) hsB
    simpa using this.symm

theorem matchToks_cons (t : Tok) (ts : List Tok) (l : LC) :
    matchToks (t :: ts) l = (matchTok t l).bind (matchToks ts) := by
  cases h : matchTok t l <;> simp [matchToks, h]

theorem himp_of_append (mA extra : List Tok) :
    ∀ x : LC, (matchToks (mA ++ extra) x).isSome → (matchToks mA x).isSome := by
  intro x h
  rw [matchToks_append] at h
  cases hm : matchToks mA x with
  | none => rw [hm] at h; simp at h
  | some r => simp

theorem matchLit_isSome_of_append {a b y : LC} (h : (matchLit (a ++ b) y).isSome) :
    (matchLit a y).isSome := by
  rw [matchLit_append] at h
  cases hm : matchLit a y with
  | none => rw [hm] at h; simp at h
  | some r => simp

theorem bib_implies_markerVI :
    ∀ x : LC, (matchToks bibHeader x).isSome → (matchToks markerVI x).isSome := by
  intro x h
  rw [show bibHeader = [Tok.lit ("VI").data, Tok.ws0, Tok.lit ['.'], Tok.ws0] ++
        [Tok.lit (("BIBLIOGRAF").data ++ ("IA").data)] from rfl,
      matchToks_append] at h
  rw [show markerVI = [Tok.lit ("VI").data, Tok.ws0, Tok.lit ['.'], Tok.ws0] ++
        [Tok.lit ("BIBLIOGRAF").data] from rfl,
      matchToks_append]
  cases hp : matchToks [Tok.lit ("VI").data, Tok.ws0, Tok.lit ['.'], Tok.ws0] x with
  | none => rw [hp] at h; simp at h
  | some y =>
    rw [hp] at h
    simp only [Option.some_bind] at h ⊢
    rw [matchToks_cons] at h ⊢
    have h' : (matchLit (("BIBLIOGRAF").data ++ ("IA").data) y).isSome := by
      cases hm : matchLit (("BIBLIOGRAF").data ++ ("IA").data) y with
      | none =>
        rw [show matchTok (Tok.lit (("BIBLIOGRAF").data ++ ("IA").data)) y =
              matchLit (("BIBLIOGRAF").data ++ ("IA").data) y from rfl, hm] at h
        simp at h
      | some r => simp
    have h2 := matchLit_isSome_of_append h'
    rw [show matchTok (Tok.lit ("BIBLIOGRAF").data) y =
          matchLit ("BIBLIOGRAF").data y from rfl]
    cases hm2 : matchLit ("BIBLIOGRAF").data y with
    | none => rw [hm2] at h2; simp at h2
    | some r => simp [matchToks]

/-- C2 (counterexample): in this document the headers of the description
(section I, first) and of the content outline (section III) both occur, with
the description header before the contents header, yet the extracted
description span ends at offset 48 while the contents span starts at offset
43: the spans overlap, because the description span only ends at the
`II.RESULTADOS` marker, which here occurs after the contents header. -/
theorem section_spans_overlap_counterexample :
    headerPosDescripcion ("I. DESCRIPCION DEL CURSO\nx\nIII. CONTENIDOS\n1. A\nII. RESULTADOS DE APRENDIZAJE\ny").data = some 0
    ∧ headerPosContenidos ("I. DESCRIPCION DEL CURSO\nx\nIII. CONTENIDOS\n1. A\nII. RESULTADOS DE APRENDIZAJE\ny").data = some 27
    ∧ span_descripcion ("I. DESCRIPCION DEL CURSO\nx\nIII. CONTENIDOS\n1. A\nII. RESULTADOS DE APRENDIZAJE\ny").data = some (25, 48)
    ∧ span_contenidos ("I. DESCRIPCION DEL CURSO\nx\nIII. CONTENIDOS\n1. A\nII. RESULTADOS DE APRENDIZAJE\ny").data = some (43, 79)
    ∧ ¬ (48 ≤ 43) := by
  refine ⟨?_, ?_, ?_, ?_, by omega⟩ <;> decide

/-- C2 (amended): for each ADJACENT pair of sections in the fixed order
(description → outcomes → content outline → methodology → evaluation →
bibliography), if both spans exist and the second section's full header
first occurs at or after the start of the first section's span, then the
first span is well formed (start ≤ end) and ends at or before the start of
the second span, so adjacent spans do not overlap.  (The unrestricted claim
is false: see `section_spans_overlap_counterexample`.) -/
theorem adjacent_section_spans_ordered :
    ∀ l : LC,
      (∀ s1 e1 hb s2 e2, span_descripcion l = some (s1, e1) →
        headerPosResultados l = some hb → s1 ≤ hb →
        span_resultados l = some (s2, e2) → s1 ≤ e1 ∧ e1 ≤ s2) ∧
      (∀ s1 e1 hb s2 e2, span_resultados l = some (s1, e1) →
        headerPosContenidos l = some hb → s1 ≤ hb →
        span_contenidos l = some (s2, e2) → s1 ≤ e1 ∧ e1 ≤ s2) ∧
      (∀ s1 e1 hb s2 e2, span_contenidos l = some (s1, e1) →
        headerPosMetodologias l = some hb → s1 ≤ hb →
        span_metodologias l = some (s2, e2) → s1 ≤ e1 ∧ e1 ≤ s2) ∧
      (∀ s1 e1 hb s2 e2, span_metodologias l = some (s1, e1) →
        headerPosEvaluacion l = some hb → s1 ≤ hb →
        span_evaluacion l = some (s2, e2) → s1 ≤ e1 ∧ e1 ≤ s2) ∧
      (∀ s1 e1 hb s2 e2, span_evaluacion l = some (s1, e1) →
        headerPosBibliografia l = some hb → s1 ≤ hb →
        span_bibliografia l = some (s2, e2) → s1 ≤ e1 ∧ e1 ≤ s2) := by
  intro l
  refine ⟨?_, ?_, ?_, ?_, ?_⟩ <;> intro s1 e1 hb s2 e2 hA hB hge hBs
  · have h1 := sectionSpan_end_le descHeader markerII resHeader
      (himp_of_append markerII _) hA hB hge
    have h2 := sectionSpan_start_ge resHeader markerIII hBs hB
    exact ⟨h1.1, le_trans h1.2 h2⟩
  · have h1 := sectionSpan_end_le resHeader markerIII contHeader
      (himp_of_append markerIII _) hA hB hge
    have h2 := sectionSpan_start_ge contHeader markerIV hBs hB
    exact ⟨h1.1, le_trans h1.2 h2⟩
  · have h1 := sectionSpan_end_le contHeader markerIV metHeader
      (himp_of_append markerIV _) hA hB hge
    have h2 := sectionSpan_start_ge metHeader markerV hBs hB
    exact ⟨h1.1, le_trans h1.2 h2⟩
  · have h1 := sectionSpan_end_le metHeader markerV evalHeader
      (himp_of_append markerV _) hA hB hge
    have h2 := sectionSpan_start_ge evalHeader markerVI hBs hB
    exact ⟨h1.1, le_trans h1.2 h2⟩
  · have h1 := sectionSpan_end_le evalHeader markerVI bibHeader
      bib_implies_markerVI hA hB hge
    have h2 := span_bibliografia_start hBs hB
    exact ⟨h1.1, h2 ▸ h1.2⟩

/-- A well-formed course document used to instantiate
`adjacent_section_spans_ordered`. -/
def wellFormedDoc : LC :=
  ("I. DESCRIPCION DEL CURSO\nd\nII. RESULTADOS DE APRENDIZAJE\n1. r\nIII. CONTENIDOS\n1. c\nIV. ESTRATEGIAS METODOLOGICAS\n- m\nV. ESTRATEGIAS EVALUATIVAS\nFoo: 100%\nVI. BIBLIOGRAFIA\nMinima\nSmith, J. (2019). Titulo. Editorial.").data

/-- Witness instance of `adjacent_section_spans_ordered` on a well-formed
document where every section is present in order: each adjacent pair of
spans is ordered. -/
theorem adjacent_section_spans_ordered_witness :
    ((25 : Nat) ≤ 27 ∧ (27 : Nat) ≤ 57) ∧
    ((57 : Nat) ≤ 62 ∧ (62 : Nat) ≤ 78) ∧
    ((78 : Nat) ≤ 83 ∧ (83 : Nat) ≤ 113) ∧
    ((113 : Nat) ≤ 117 ∧ (117 : Nat) ≤ 144) ∧
    ((144 : Nat) ≤ 154 ∧ (154 : Nat) ≤ 154) := by
  obtain ⟨h1, h2, h3, h4, h5⟩ := adjacent_section_spans_ordered wellFormedDoc
  refine ⟨?_, ?_, ?_, ?_, ?_⟩
  · exact h1 25 27 27 57 62 (by decide) (by decide) (by omega) (by decide)
  · exact h2 57 62 62 78 83 (by decide) (by decide) (by omega) (by decide)
  · exact h3 78 83 83 113 117 (by decide) (by decide) (by omega) (by decide)
  · exact h4 113 117 117 144 154 (by decide) (by decide) (by omega) (by decide)
  · exact h5 144 154 154 154 214 (by decide) (by decide) (by omega) (by decide)

/-! ## parsers.py: `extract_evaluacion` (claim C7) -/

/-- Matcher for `\s*([^:]+):` with its backtracking: greedy whitespace, then
a non-empty run of non-colon characters up to a colon.  When the colon
follows the whitespace run directly, the engine gives one whitespace
character back to the group. -/
def labelAfterWs (r : LC) : Option (LC × LC) :=
  let w := (r.takeWhile isWsCh).length
  match r.drop w with
  | ':' :: rest => if w = 0 then none else some ((r.drop (w - 1)).take 1, rest)
  | [] => none
  | _ =>
    let lab := (r.drop w).takeWhile (· ≠ ':')
    match (r.drop w).drop lab.length with
    | ':' :: rest => some (lab, rest)
    | _ => none

/-- Matcher for `\s*(\d+)%`. -/
def digitsPercent (r : LC) : Option (LC × LC) :=
  let r1 := r.dropWhile isWsCh
  let ds := r1.takeWhile isDigitCh
  if ds.isEmpty then none
  else
    match r1.drop ds.length with
    | '%' :: rest => some (ds, rest)
    | _ => none

/-- Match of `-\s*([^:]+):\s*(\d+)%` at the head of the text. -/
def evalMatch1 (l : LC) : Option (LC × LC × LC) :=
  match l with
  | '-' :: r =>
    (labelAfterWs r).bind fun lr =>
      (digitsPercent lr.2).map fun dr => (lr.1, dr.1, dr.2)
  | _ => none

/-- Match of `•\s*([^:]+):\s*(\d+)%` at the head of the text. -/
def evalMatch2 (l : LC) : Option (LC × LC × LC) :=
  match l with
  | '•' :: r =>
    (labelAfterWs r).bind fun lr =>
      (digitsPercent lr.2).map fun dr => (lr.1, dr.1, dr.2)
  | _ => none

/-- Match of `^([^:]+):\s*(\d+)%` at the head of a line (no leading `\s*`:
the group starts at the line start and may span newlines). -/
def evalMatch3 (l : LC) : Option (LC × LC × LC) :=
  let lab := l.takeWhile (· ≠ ':')
  if lab.isEmpty then none
  else
    match l.drop lab.length with
    | ':' :: r2 => (digitsPercent r2).map fun dr => (lab, dr.1, dr.2)
    | _ => none

/-- `re.findall` scanning: try the matcher at every position left to right,
resuming after each non-overlapping match.  `fuel` is `length + 1`; each
step consumes at least one character. -/
def findallGo (try1 : LC → Option (LC × LC × LC)) : Nat → LC → List (LC × LC)
  | 0, _ => []
  | _ + 1, [] => []
  | fuel + 1, c :: t =>
    match try1 (c :: t) with
    | some (lab, ds, rest) => (lab, ds) :: findallGo try1 fuel rest
    | none => findallGo try1 fuel t

/-- `re.findall` with `re.MULTILINE` for the `^`-anchored third pattern:
the matcher is only tried at line starts. -/
def findallMlGo (try1 : LC → Option (LC × LC × LC)) : Nat → Bool → LC → List (LC × LC)
  | 0, _, _ => []
  | _ + 1, _, [] => []
  | fuel + 1, atStart, c :: t =>
    if atStart then
      match try1 (c :: t) with
      | some (lab, ds, rest) => (lab, ds) :: findallMlGo try1 fuel false rest
      | none => findallMlGo try1 fuel (c == '\n') t
    else findallMlGo try1 fuel (c == '\n') t

/-- The concatenated match lists of the three evaluation patterns, in the
order the source processes them. -/
def evalSectionMatches (sec : LC) : List (LC × LC) :=
  findallGo evalMatch1 (sec.length + 1) sec ++
  findallGo evalMatch2 (sec.length + 1) sec ++
  findallMlGo evalMatch3 (sec.length + 1) true sec

/-- Numeric value of a digit run (`float(porcentaje)` on a `\d+` group). -/
def digitsToNat (ds : LC) : Nat := ds.foldl (fun a c => a * 10 + (c.toNat - 48)) 0

/-- Embedding of `ContentParser.extract_evaluacion` (lines 252-294): isolate
section V, run the three patterns over the whole section text in order,
assign `items[nombre.strip()] = float(porcentaje)` for every match, then
verify the total.  Without a section match the default `Evaluacion` is
returned unverified. -/
def extract_evaluacion (text : LC) : Evaluacion :=
  match sectionSlice evalHeader markerVI text with
  | none => ⟨[], false, 0⟩
  | some sec0 =>
    let sec := stripWs sec0
    let items := (evalSectionMatches sec).foldl
      (fun acc p => upsert (stripWs p.1) ((digitsToNat p.2 : ℚ)) acc) []
    verificar_total ⟨items, false, 0⟩

/-! ## Dictionary lemmas for the evaluation mapping -/

theorem alookup_upsert {β : Type} (k k' : LC) (v : β) (m : List (LC × β)) :
    alookup k (upsert k' v m) = if k' = k then some v else alookup k m := by
  induction m with
  | nil => simp [upsert, alookup]
  | cons q t ih =>
    obtain ⟨k0, v0⟩ := q
    unfold upsert
    by_cases h0 : k0 = k'
    · rw [if_pos h0]
      subst h0
      by_cases hk : k0 = k
      · simp [alookup, hk]
      · simp [alookup, hk]
    · rw [if_neg h0]
      unfold alookup
      by_cases hk0 : k0 = k
      · rw [if_pos hk0, if_pos hk0]
        rw [if_neg (fun h => h0 (hk0.trans h.symm))]
      · rw [if_neg hk0, if_neg hk0, ih]

theorem alookup_singleton {β : Type} (k k0 : LC) (v0 : β) :
    alookup k [(k0, v0)] = if k0 = k then some v0 else none := rfl

theorem alookup_append {β : Type} (k : LC) (a b : List (LC × β)) :
    alookup k (a ++ b) =
      match alookup k a with
      | some v => some v
      | none => alookup k b := by
  induction a with
  | nil => simp [alookup]
  | cons q t ih =>
    obtain ⟨k0, v0⟩ := q
    rw [List.cons_append]
    show (if k0 = k then some v0 else alookup k (t ++ b)) =
      match (if k0 = k then some v0 else alookup k t) with
      | some v => some v
      | none => alookup k b
    by_cases h : k0 = k
    · rw [if_pos h, if_pos h]
    · rw [if_neg h, if_neg h]
      exact ih

theorem foldl_upsert_alookup {β : Type} (ms : List (LC × β)) (acc : List (LC × β))
    (k : LC) :
    alookup k (ms.foldl (fun acc p => upsert p.1 p.2 acc) acc) =
      match alookup k ms.reverse with
      | some v => some v
      | none => alookup k acc := by
  induction ms generalizing acc with
  | nil => simp [alookup]
  | cons p ms ih =>
    obtain ⟨k0, v0⟩ := p
    rw [List.foldl_cons, ih, List.reverse_cons, alookup_append, alookup_upsert,
        alookup_singleton]
    cases hrev : alookup k ms.reverse with
    | some v => rfl
    | none =>
      by_cases hk : k0 = k
      · rw [if_pos hk, if_pos hk]
      · rw [if_neg hk, if_neg hk]

theorem upsert_keys {β : Type} (k : LC) (v : β) (m : List (LC × β)) :
    (upsert k v m).map Prod.fst =
      if k ∈ m.map Prod.fst then m.map Prod.fst else m.map Prod.fst ++ [k] := by
  induction m with
  | nil => simp [upsert]
  | cons q t ih =>
    obtain ⟨k0, v0⟩ := q
    unfold upsert
    by_cases h0 : k0 = k
    · subst h0
      rw [if_pos rfl]
      have hmem : k0 ∈ ((k0, v0) :: t).map Prod.fst := by
        simp only [List.map_cons, List.mem_cons]
        exact Or.inl trivial
      rw [if_pos hmem]
      simp only [List.map_cons]
    · rw [if_neg h0]
      have hne : ¬ k = k0 := fun h => h0 h.symm
      by_cases hm : k ∈ t.map Prod.fst
      · have hmem : k ∈ ((k0, v0) :: t).map Prod.fst := by
          simp only [List.map_cons, List.mem_cons]
          exact Or.inr hm
        rw [if_pos hmem]
        simp only [List.map_cons]
        rw [ih, if_pos hm]
      · have hmem : ¬ k ∈ ((k0, v0) :: t).map Prod.fst := by
          simp only [List.map_cons, List.mem_cons]
          intro hc
          rcases hc with hc | hc
          · exact hne hc
          · exact hm hc
        rw [if_neg hmem]
        simp only [List.map_cons]
        rw [ih, if_neg hm]
        rfl

theorem upsert_keys_nodup {β : Type} {k : LC} {v : β} {m : List (LC × β)}
    (h : (m.map Prod.fst).Nodup) : ((upsert k v m).map Prod.fst).Nodup := by
  rw [upsert_keys]
  by_cases hm : k ∈ m.map Prod.fst
  · simp [hm, h]
  · simp [hm, List.nodup_append, h]

theorem foldl_upsert_nodup {β : Type} (ms : List (LC × β)) (acc : List (LC × β))
    (h : (acc.map Prod.fst).Nodup) :
    (((ms.foldl (fun acc p => upsert p.1 p.2 acc) acc)).map Prod.fst).Nodup := by
  induction ms generalizing acc with
  | nil => exact h
  | cons p ms ih => exact ih _ (upsert_keys_nodup h)

/-- The matches the evaluation extractor processes, already carrying the
stripped label and the numeric value, in processing order (dash pattern,
then bullet pattern, then line-anchored pattern). -/
def evalMatchesOf (text : LC) : List (LC × ℚ) :=
  match sectionSlice evalHeader markerVI text with
  | none => []
  | some sec0 =>
    (evalSectionMatches (stripWs sec0)).map
      (fun p => (stripWs p.1, ((digitsToNat p.2 : Nat) : ℚ)))

/-- C7 (amended): in the evaluation mapping the labels are unique, and the
value stored for a label is that of the LAST match in processing order -
all matches of the dash pattern first, then the bullet pattern, then the
line-anchored pattern - not the last occurrence in the text; moreover a
single bullet-prefixed line contributes matches to two patterns (with the
bullet kept in the label of the line-anchored match), so a line need not
contribute exactly one entry.  (The claim as frozen is refuted by
`extract_evaluacion_counterexample`.) -/
theorem extract_evaluacion_amended :
    ∀ text : LC,
      ((extract_evaluacion text).items.map Prod.fst).Nodup ∧
      ∀ k : LC, alookup k (extract_evaluacion text).items =
        alookup k (evalMatchesOf text).reverse := by
  intro text
  unfold extract_evaluacion evalMatchesOf
  cases hs : sectionSlice evalHeader markerVI text with
  | none =>
    constructor
    · simp
    · intro k
      simp [alookup]
  | some sec0 =>
    dsimp only
    have hitems :
        (verificar_total
          ⟨(evalSectionMatches (stripWs sec0)).foldl
            (fun acc p => upsert (stripWs p.1) ((digitsToNat p.2 : Nat) : ℚ) acc) [],
           false, 0⟩).items =
        ((evalSectionMatches (stripWs sec0)).map
          (fun p => (stripWs p.1, ((digitsToNat p.2 : Nat) : ℚ)))).foldl
          (fun acc p => upsert p.1 p.2 acc) [] := by
      rw [List.foldl_map]
      rfl
    rw [hitems]
    constructor
    · exact foldl_upsert_nodup _ _ (by simp)
    · intro k
      rw [foldl_upsert_alookup]
      cases h : alookup k ((evalSectionMatches (stripWs sec0)).map
          (fun p => (stripWs p.1, ((digitsToNat p.2 : Nat) : ℚ)))).reverse <;> rfl

/-- C7 (counterexample): in the section text `Foo: 40%` followed by the line
`- Foo: 30%`, the bullet-prefixed second line contributes TWO entries (one
as `Foo` via the dash pattern and one as `- Foo` via the line-anchored
pattern), and the final value of label `Foo` is 40 - the value of the
line-anchored pass, which runs after the dash pass - although the last
occurrence of label `Foo` in the text carries 30.  This refutes both the
"exactly one entry per line" and the "last occurrence wins" parts of the
claim as frozen. -/
theorem extract_evaluacion_counterexample :
    (extract_evaluacion ("V. ESTRATEGIAS EVALUATIVAS\nFoo: 40%\n- Foo: 30%").data).items =
      [(("Foo").data, (40 : ℚ)), (("- Foo").data, (30 : ℚ))]
    ∧ alookup ("Foo").data
        (extract_evaluacion ("V. ESTRATEGIAS EVALUATIVAS\nFoo: 40%\n- Foo: 30%").data).items =
      some (40 : ℚ)
    ∧ (40 : ℚ) ≠ 30 := by
  have hsec : sectionSlice evalHeader markerVI
      ("V. ESTRATEGIAS EVALUATIVAS\nFoo: 40%\n- Foo: 30%").data =
      some ("Foo: 40%\n- Foo: 30%").data := by decide
  have hmat : evalSectionMatches (stripWs ("Foo: 40%\n- Foo: 30%").data) =
      [(("Foo").data, ("30").data), (("Foo").data, ("40").data),
       (("- Foo").data, ("30").data)] := by decide
  have hitems :
      (extract_evaluacion ("V. ESTRATEGIAS EVALUATIVAS\nFoo: 40%\n- Foo: 30%").data).items =
      [(("Foo").data, (40 : ℚ)), (("- Foo").data, (30 : ℚ))] := by
    unfold extract_evaluacion
    rw [hsec]
    dsimp only
    rw [hmat]
    simp only [List.foldl_cons, List.foldl_nil]
    rw [show stripWs ("Foo").data = ("Foo").data from by decide,
        show stripWs ("- Foo").data = ("- Foo").data from by decide,
        show digitsToNat ("30").data = 30 from by decide,
        show digitsToNat ("40").data = 40 from by decide]
    show ((verificar_total ⟨upsert ("- Foo").data ((30 : Nat) : ℚ)
        (upsert ("Foo").data ((40 : Nat) : ℚ)
          (upsert ("Foo").data ((30 : Nat) : ℚ) [])), false, 0⟩).items) = _
    rw [show (∀ e : Evaluacion, (verificar_total e).items = e.items) from fun e => rfl]
    rw [show upsert ("Foo").data ((30 : Nat) : ℚ) [] =
          [(("Foo").data, ((30 : Nat) : ℚ))] from rfl]
    rw [show upsert ("Foo").data ((40 : Nat) : ℚ) [(("Foo").data, ((30 : Nat) : ℚ))] =
          [(("Foo").data, ((40 : Nat) : ℚ))] from by
        unfold upsert
        rw [if_pos rfl]]
    rw [show upsert ("- Foo").data ((30 : Nat) : ℚ) [(("Foo").data, ((40 : Nat) : ℚ))] =
          [(("Foo").data, ((40 : Nat) : ℚ)), (("- Foo").data, ((30 : Nat) : ℚ))] from by
        unfold upsert
        rw [if_neg (show ¬ ("Foo").data = ("- Foo").data from by decide)]
        rfl]
    simp only [List.cons.injEq, Prod.mk.injEq]
    norm_num
  refine ⟨hitems, ?_, by norm_num⟩
  rw [hitems]
  rw [show alookup ("Foo").data
      [(("Foo").data, (40 : ℚ)), (("- Foo").data, (30 : ℚ))] =
      if ("Foo").data = ("Foo").data then some (40 : ℚ)
      else alookup ("Foo").data [(("- Foo").data, (30 : ℚ))] from rfl]
  rw [if_pos rfl]

/-! ## bibliography_cleaner.py: `CleanBibEntry` and `_normalize_text` -/

/-- Embedding of the `CleanBibEntry` dataclass. -/
structure CleanBibEntry where
  authors : List LC
  title : Option LC := none
  year : Option Nat := none
  publisher : Option LC := none
  journal : Option LC := none
  pages : Option LC := none
  url : Option LC := none
  doi : Option LC := none
  raw_text : Option LC := none
  confidence : ℚ := 1.0

/-- Generic left-to-right `re.sub` scan: at each position try a matcher
returning the replacement and the rest after the match; continue after it.
`fuel` is `length + 1`; every matcher consumes at least one character. -/
def scanSub (try1 : LC → Option (LC × LC)) : Nat → LC → LC
  | 0, l => l
  | _ + 1, [] => []
  | fuel + 1, c :: t =>
    match try1 (c :: t) with
    | some (rep, rest) => rep ++ scanSub try1 fuel rest
    | none => c :: scanSub try1 fuel t

/-- The quote class of `_normalize_text` as it stands in the source bytes:
the ASCII double quote, the ASCII apostrophe and `„` (U+201E). -/
def isQuoteCh (c : Char) : Bool :=
  c == '"' || c == Char.ofNat 39 || c == Char.ofNat 8222

/-- The dash class `[–—]` (U+2013, U+2014). -/
def isDashCh (c : Char) : Bool := c == Char.ofNat 8211 || c == Char.ofNat 8212

/-- Whitespace-run collapser (`re.sub(r'\s+', ' ', text)`). -/
def collapseWs (l : LC) : LC :=
  scanSub
    (fun l =>
      match l with
      | c :: t => if isWsCh c then some ([' '], t.dropWhile isWsCh) else none
      | [] => none)
    (l.length + 1) l

/-- OCR fix `re.sub(r'\?\s*([A-Z])', r'"\1', text)`. -/
def ocrFixQuestion (l : LC) : LC :=
  scanSub
    (fun l =>
      match l with
      | '?' :: t =>
        match t.dropWhile isWsCh with
        | u :: r3 => if isAsciiUpper u then some (['"', u], r3) else none
        | [] => none
      | _ => none)
    (l.length + 1) l

/-- OCR fix `re.sub(r'([a-z])\?\s*,', r'\1",', text)`. -/
def ocrFixComma (l : LC) : LC :=
  scanSub
    (fun l =>
      match l with
      | a :: '?' :: t =>
        if isAsciiLower a then
          match t.dropWhile isWsCh with
          | ',' :: r3 => some ([a, '"', ','], r3)
          | _ => none
        else none
      | _ => none)
    (l.length + 1) l

/-- Embedding of `BibliographyCleaner._normalize_text`. -/
def normalize_text (raw : LC) : LC :=
  let t1 := raw.map (fun c => if isQuoteCh c then '"' else c)
  let t2 := t1.map (fun c => if isDashCh c then '-' else c)
  let t3 := collapseWs t2
  let t4 := stripWs t3
  ocrFixComma (ocrFixQuestion t4)

/-! ## bibliography_cleaner.py: the four parsing strategies -/

/-- Matcher for `\s*([^X]+)X` with the one-step whitespace backtracking
(as in `labelAfterWs`, for an arbitrary stop character). -/
def grabBeforeStop (stop : Char) (r : LC) : Option (LC × LC) :=
  let w := (r.takeWhile isWsCh).length
  match r.drop w with
  | c :: rest =>
    if c = stop then
      if w = 0 then none else some ((r.drop (w - 1)).take 1, rest)
    else
      let g := (r.drop w).takeWhile (· ≠ stop)
      match (r.drop w).drop g.length with
      | c2 :: rest2 => if c2 = stop then some (g, rest2) else none
      | [] => none
  | [] => none

/-- The tail `\s*"([^"]+)",\s*([^,]+),\s*(\d{4})` of the IEEE pattern,
applied after the comma that closes the author group. -/
def ieeeTail (r : LC) : Option (LC × LC × Nat) :=
  match r.dropWhile isWsCh with
  | '"' :: r2 =>
    let ti := r2.takeWhile (· ≠ '"')
    if ti.isEmpty then none
    else
      match r2.drop ti.length with
      | '"' :: ',' :: r3 =>
        match grabBeforeStop ',' r3 with
        | some (pub, r4) =>
          let r5 := r4.dropWhile isWsCh
          let ds := r5.take 4
          if ds.all isDigitCh && decide (ds.length = 4) then
            some (ti, pub, digitsToNat ds)
          else none
        | none => none
      | _ => none
  | _ => none

/-- Backtracking over the end position of group 1 of the IEEE pattern
`^([^"]+),\s*"..."`: the group is a non-empty quote-free prefix ending
just before a comma; the engine tries the longest candidate first. -/
def ieeeScanK (t : LC) : Nat → Option (LC × LC × LC × Nat)
  | 0 => none
  | k + 1 =>
    match t.drop (k + 1) with
    | ',' :: r =>
      match ieeeTail r with
      | some (ti, pub, yr) => some (t.take (k + 1), ti, pub, yr)
      | none => ieeeScanK t k
    | _ => ieeeScanK t k

/-- Embedding of `BibliographyCleaner._parse_ieee_style`:
`^([^"]+),\s*"([^"]+)",\s*([^,]+),\s*(\d{4})`, confidence 0.95 on match. -/
def parse_ieee_style (t : LC) : CleanBibEntry :=
  match ieeeScanK t (t.takeWhile (· ≠ '"')).length with
  | some (g1, ti, pub, yr) =>
    { authors := parse_authors (stripWs g1), title := some (stripWs ti),
      year := some yr, publisher := some (stripWs pub), confidence := 0.95 }
  | none => { authors := [], confidence := 0.0 }

/-- Embedding of `BibliographyCleaner._parse_apa_style`:
`^([^(]+)\s*\((\d{4})\)\.\s*([^.]+)\.\s*(.+)`, confidence 0.9 on match. -/
def parse_apa_style (t : LC) : CleanBibEntry :=
  let fail : CleanBibEntry := { authors := [], confidence := 0.0 }
  let m := t.takeWhile (· ≠ '(')
  if m.isEmpty then fail
  else
    match t.drop m.length with
    | '(' :: r =>
      let ds := r.take 4
      if ds.all isDigitCh && decide (ds.length = 4) then
        match r.drop 4 with
        | ')' :: '.' :: r2 =>
          match grabBeforeStop '.' r2 with
          | some (g3, r3) =>
            match tailCapture r3 with
            | some g4 =>
              { authors := parse_authors (stripWs m), year := some (digitsToNat ds),
                title := some (stripWs g3), publisher := some (stripWs g4),
                confidence := 0.9 }
            | none => fail
          | none => fail
        | _ => fail
      else fail
    | _ => fail

/-- Word characters for the `\b` boundaries of `\b(19|20)\d{2}\b`
(ASCII letters, digits and underscore). -/
def isWordCh (c : Char) : Bool := c.isAlphanum || c == '_'

/-- Does `(19|20)\d{2}\b` match at the head?  Returns the year value. -/
def yearAt : LC → Option Nat
  | c1 :: c2 :: c3 :: c4 :: rest =>
    if ((c1 == '1' && c2 == '9') || (c1 == '2' && c2 == '0')) &&
       isDigitCh c3 && isDigitCh c4 &&
       (match rest with
        | [] => true
        | d :: _ => !isWordCh d) then
      some (digitsToNat [c1, c2, c3, c4])
    else none
  | _ => none

/-- Leftmost match of `\b(19|20)\d{2}\b` with its start index, tracking the
previous character for the left word boundary. -/
def findYearGo : Option Char → Nat → LC → Option (Nat × Nat)
  | _, _, [] => none
  | prev, i, c :: t =>
    if (match prev with
        | none => true
        | some p => !isWordCh p) then
      match yearAt (c :: t) with
      | some y => some (i, y)
      | none => findYearGo (some c) (i + 1) t
    else findYearGo (some c) (i + 1) t

def findYear (t : LC) : Option (Nat × Nat) := findYearGo none 0 t

/-- Leftmost match of `"([^"]+)"` with the index of the opening quote. -/
def findQuotedGo : Nat → LC → Option (Nat × LC)
  | _, [] => none
  | i, c :: r =>
    if c = '"' then
      let g := r.takeWhile (· ≠ '"')
      if !g.isEmpty && !(r.drop g.length).isEmpty then some (i, g)
      else findQuotedGo (i + 1) r
    else findQuotedGo (i + 1) r

def findQuoted (t : LC) : Option (Nat × LC) := findQuotedGo 0 t

/-- First index of a substring (Python `str.find`, for non-empty patterns). -/
def findSubIdx (pat : LC) : Nat → LC → Option Nat
  | i, [] => if pat.isEmpty then some i else none
  | i, l@(_ :: t) => if pat.isPrefixOf l then some i else findSubIdx pat (i + 1) t

/-- The `title_indicators` list of the source, in order. -/
def titleIndicators : List LC :=
  [("machine learning").data, ("data mining").data, ("artificial intelligence").data,
   ("pattern recognition").data, ("statistical learning").data, ("deep learning").data,
   ("introduction to").data, ("handbook of").data, ("fundamentals of").data]

/-- Title-indicator lookup of `_parse_author_year_style`: for the first
indicator occurring in the lowered text, the group of
`([^,.]*indicator[^,.]*)` is the maximal comma/period-free run around the
first occurrence; the result is stripped. -/
def indicatorTitleGo (t : LC) : List LC → Option LC
  | [] => none
  | ind :: rest =>
    match findSubIdx (ind.map lowerCh) 0 (t.map lowerCh) with
    | some f =>
      let back := ((t.take f).reverse.takeWhile (fun c => !(c == ',' || c == '.'))).length
      let fwd := ((t.drop (f + ind.length)).takeWhile (fun c => !(c == ',' || c == '.'))).length
      some (stripWs ((t.drop (f - back)).take (back + ind.length + fwd)))
    | none => indicatorTitleGo t rest

def indicatorTitle (t : LC) : Option LC := indicatorTitleGo t titleIndicators

/-- The known-publisher table of the source, in its literal order (the
source iterates a `set`; the literal order is used here as a deterministic
model of that iteration). -/
def publishersList : List LC :=
  [("springer").data, ("wiley").data, ("elsevier").data, ("mit press").data,
   ("cambridge university press").data, ("oxford university press").data,
   ("ieee").data, ("acm").data, ("pearson").data,
   ("o").data ++ [Char.ofNat 39] ++ ("reilly").data,
   ("crc press").data, ("taylor & francis").data, ("sage").data,
   ("academic press").data]

def pubStopCh (c : Char) : Bool := c == '.' || c == ',' || c == ';' || c == '\n'

/-- Known-publisher scan of `_extract_publisher`: the first table entry
found in the lowered text wins; the slice is expanded to the surrounding
punctuation on both sides and stripped of ` .,;`. -/
def knownPublisherScan (t : LC) : List LC → Option LC
  | [] => none
  | p :: rest =>
    match findSubIdx p 0 (t.map lowerCh) with
    | some i =>
      let fwd := ((t.drop (i + p.length)).takeWhile (fun c => !pubStopCh c)).length
      let back := ((t.take i).reverse.takeWhile (fun c => !pubStopCh c)).length
      some (stripSet [' ', '.', ',', ';'] ((t.drop (i - back)).take (back + p.length + fwd)))
    | none => knownPublisherScan t rest

/-- One alternative of `(?:Press|Publishers?|Books?|Ltd|Inc)` matching at the
head, in alternation order with greedy `s?`; returns the matched length. -/
def pubSuffixAt (r : LC) : Option Nat :=
  if ("Press").data.isPrefixOf r then some 5
  else if ("Publishers").data.isPrefixOf r then some 10
  else if ("Publisher").data.isPrefixOf r then some 9
  else if ("Books").data.isPrefixOf r then some 5
  else if ("Book").data.isPrefixOf r then some 4
  else if ("Ltd").data.isPrefixOf r then some 3
  else if ("Inc").data.isPrefixOf r then some 3
  else none

/-- Backtracking of `[^,]*(?:...)`: the greedy star prefers the latest
suffix start inside the comma-free run. -/
def lastSuffixEndGo (run : LC) : Nat → Option Nat
  | 0 => pubSuffixAt run
  | q + 1 =>
    match pubSuffixAt (run.drop (q + 1)) with
    | some len => some (q + 1 + len)
    | none => lastSuffixEndGo run q

/-- Match of `\s*([A-Z][^,]*(?:Press|Publishers?|Books?|Ltd|Inc))` after a
comma. -/
def fallbackPubAt (r : LC) : Option LC :=
  match r.dropWhile isWsCh with
  | u :: rest =>
    if isAsciiUpper u then
      let run := rest.takeWhile (· ≠ ',')
      match lastSuffixEndGo run run.length with
      | some e => some (u :: run.take e)
      | none => none
    else none
  | [] => none

/-- Leftmost match of the fallback publisher pattern
`,\s*([A-Z][^,]*(?:Press|Publishers?|Books?|Ltd|Inc))`. -/
def fallbackPubGo : Nat → LC → Option LC
  | 0, _ => none
  | _ + 1, [] => none
  | fuel + 1, c :: r =>
    if c = ',' then
      match fallbackPubAt r with
      | some g => some g
      | none => fallbackPubGo fuel r
    else fallbackPubGo fuel r

/-- Embedding of `BibliographyCleaner._extract_publisher`. -/
def extract_publisher (t : LC) : Option LC :=
  match knownPublisherScan t publishersList with
  | some p => some p
  | none => (fallbackPubGo (t.length + 1) t).map stripWs

/-- The additive confidence of `_parse_author_year_style`:
0.3 base, +0.2 for a year, +0.3 for a title, +0.1 for a publisher,
+0.1 for authors, capped at 1.0. -/
def ayConfidence (hasYear hasTitle hasPub hasAuthors : Bool) : ℚ :=
  let c0 : ℚ := 0.3
  let c1 := if hasYear then c0 + 0.2 else c0
  let c2 := if hasTitle then c1 + 0.3 else c1
  let c3 := if hasPub then c2 + 0.1 else c2
  let c4 := if hasAuthors then c3 + 0.1 else c3
  min c4 1.0

/-- Embedding of `BibliographyCleaner._parse_author_year_style`. -/
def parse_author_year_style (t : LC) : CleanBibEntry :=
  let yearM := findYear t
  let year : Option Nat := yearM.map (fun p => p.2)
  let titleQ := findQuoted t
  let title : Option LC :=
    match titleQ with
    | some p => some p.2
    | none => indicatorTitle t
  let publisher := extract_publisher t
  let authors_text : LC :=
    match yearM with
    | some p => t.take p.1
    | none =>
      match titleQ with
      | some p => t.take p.1
      | none => t
  let authors := parse_authors authors_text
  { authors := authors, title := title, year := year, publisher := publisher,
    confidence := ayConfidence year.isSome title.isSome publisher.isSome (!authors.isEmpty) }

/-- Embedding of `BibliographyCleaner._parse_fallback`. -/
def parse_fallback (t : LC) : CleanBibEntry :=
  let year : Option Nat := (findYear t).map (fun p => p.2)
  let authors := extract_basic_authors t
  let publisher := extract_publisher t
  let conf : ℚ := if year.isSome || !authors.isEmpty || publisher.isSome then 0.2 else 0.1
  { authors := authors, year := year, publisher := publisher, confidence := conf }

/-- The scan loop of `clean_entry`: keep the best result so far (strict
improvement only, so an earlier strategy wins ties) and stop as soon as a
result exceeds confidence 0.9. -/
def pyLoop : List CleanBibEntry → Option CleanBibEntry → ℚ → Option CleanBibEntry × ℚ
  | [], b, bc => (b, bc)
  | r :: rs, b, bc =>
    if bc < r.confidence then
      if (0.9 : ℚ) < r.confidence then (some r, r.confidence)
      else pyLoop rs (some r) r.confidence
    else
      if (0.9 : ℚ) < r.confidence then (b, bc)
      else pyLoop rs b bc

/-- Embedding of `BibliographyCleaner.clean_entry`. -/
def clean_entry (raw : LC) : CleanBibEntry :=
  if raw.isEmpty || decide ((stripWs raw).length < 10) then
    { authors := [], raw_text := some raw, confidence := 0.0 }
  else
    let text := normalize_text raw
    let results := [parse_ieee_style text, parse_apa_style text,
                    parse_author_year_style text, parse_fallback text]
    match (pyLoop results none 0).1 with
    | some best => { best with raw_text := some raw }
    | none =>
      { authors := extract_basic_authors text, raw_text := some raw, confidence := 0.1 }

/-! ## Strategy selection (claims C3, C5, C6) -/

/-- Highest confidence across the four results, an earlier strategy winning
ties (the claim's tie-breaking rule). -/
def bestOfFour (r1 r2 r3 r4 : CleanBibEntry) : CleanBibEntry :=
  let b2 := if r1.confidence < r2.confidence then r2 else r1
  let b3 := if b2.confidence < r3.confidence then r3 else b2
  if b3.confidence < r4.confidence then r4 else b3

/-- The selection rule exactly as claim C3 words it: the first strategy
whose confidence strictly exceeds 0.9 wins; otherwise the
highest-confidence result across all four, an earlier strategy winning
ties. -/
def claimSelection (r1 r2 r3 r4 : CleanBibEntry) : CleanBibEntry :=
  if (0.9 : ℚ) < r1.confidence then r1
  else if (0.9 : ℚ) < r2.confidence then r2
  else if (0.9 : ℚ) < r3.confidence then r3
  else if (0.9 : ℚ) < r4.confidence then r4
  else bestOfFour r1 r2 r3 r4

theorem parse_ieee_conf_nonneg (t : LC) : 0 ≤ (parse_ieee_style t).confidence := by
  unfold parse_ieee_style
  cases h : ieeeScanK t (t.takeWhile (· ≠ '"')).length with
  | none => norm_num
  | some q =>
    obtain ⟨g1, ti, pub, yr⟩ := q
    norm_num

theorem parse_apa_conf_nonneg (t : LC) : 0 ≤ (parse_apa_style t).confidence := by
  unfold parse_apa_style
  dsimp only
  split
  · norm_num
  · split
    · split
      · split
        · split
          · split
            · norm_num
            · norm_num
          · norm_num
        · norm_num
      · norm_num
    · norm_num

theorem ayConfidence_ge (a b c d : Bool) : (3 : ℚ)/10 ≤ ayConfidence a b c d := by
  unfold ayConfidence
  cases a <;> cases b <;> cases c <;> cases d <;> dsimp only <;>
    rw [min_eq_left (by norm_num)] <;> norm_num

theorem parse_author_year_conf_ge (t : LC) :
    (3 : ℚ)/10 ≤ (parse_author_year_style t).confidence := by
  unfold parse_author_year_style
  dsimp only
  exact ayConfidence_ge _ _ _ _

theorem parse_fallback_conf_nonneg (t : LC) : 0 ≤ (parse_fallback t).confidence := by
  unfold parse_fallback
  dsimp only
  split <;> norm_num

theorem bestOfFour_conf_ge_r3 (r1 r2 r3 r4 : CleanBibEntry) :
    r3.confidence ≤ (bestOfFour r1 r2 r3 r4).confidence := by
  unfold bestOfFour
  dsimp only
  split_ifs <;> linarith

theorem claimSelection_conf_ge (r1 r2 r3 r4 : CleanBibEntry)
    (h3 : (3 : ℚ)/10 ≤ r3.confidence) :
    (3 : ℚ)/10 ≤ (claimSelection r1 r2 r3 r4).confidence := by
  unfold claimSelection
  have hb := bestOfFour_conf_ge_r3 r1 r2 r3 r4
  split_ifs <;> linarith

/-- The scan loop over the four strategy results computes exactly the
selection rule of the claim, provided the first result has nonnegative
confidence and the third has positive confidence (as the four strategies
always do). -/
theorem pyLoop_four (r1 r2 r3 r4 : CleanBibEntry)
    (h1 : 0 ≤ r1.confidence) (h3 : 0 < r3.confidence) :
    (pyLoop [r1, r2, r3, r4] none 0).1 = some (claimSelection r1 r2 r3 r4) := by
  unfold claimSelection bestOfFour
  simp only [pyLoop]
  repeat' first
    | rfl
    | (exfalso; linarith)
    | split_ifs

/-- Shared helper: on any raw text that survives the length guard,
`clean_entry` returns the claim's selection over the four strategy results
(computed on the normalized text), with `raw_text` set to the raw input. -/
theorem clean_entry_eq_selection (raw : LC)
    (h : (raw.isEmpty || decide ((stripWs raw).length < 10)) = false) :
    clean_entry raw =
      { claimSelection (parse_ieee_style (normalize_text raw))
          (parse_apa_style (normalize_text raw))
          (parse_author_year_style (normalize_text raw))
          (parse_fallback (normalize_text raw)) with raw_text := some raw } := by
  unfold clean_entry
  simp only [h, Bool.false_eq_true, if_false]
  rw [pyLoop_four _ _ _ _ (parse_ieee_conf_nonneg _)
    (lt_of_lt_of_le (by norm_num) (parse_author_year_conf_ge (normalize_text raw)))]

/-- C3. Amended: for raw texts that pass the length guard (nonempty and at
least 10 characters after stripping), `clean_entry` returns the result of
the first strategy whose confidence strictly exceeds 0.9, and otherwise
the highest-confidence result across the four strategies with an earlier
strategy winning ties, with `raw_text` set to the raw input. The original
universally quantified claim fails on short inputs (see the
counterexample). -/
theorem clean_entry_strategy_selection (raw : LC)
    (h : (raw.isEmpty || decide ((stripWs raw).length < 10)) = false) :
    clean_entry raw =
      { claimSelection (parse_ieee_style (normalize_text raw))
          (parse_apa_style (normalize_text raw))
          (parse_author_year_style (normalize_text raw))
          (parse_fallback (normalize_text raw)) with raw_text := some raw } :=
  clean_entry_eq_selection raw h

theorem clean_entry_strategy_selection_witness :
    (((("aaaaaaaaaaaa").data).isEmpty ||
        decide ((stripWs (("aaaaaaaaaaaa").data)).length < 10)) = false) ∧
    clean_entry (("aaaaaaaaaaaa").data) =
      { claimSelection (parse_ieee_style (normalize_text (("aaaaaaaaaaaa").data)))
          (parse_apa_style (normalize_text (("aaaaaaaaaaaa").data)))
          (parse_author_year_style (normalize_text (("aaaaaaaaaaaa").data)))
          (parse_fallback (normalize_text (("aaaaaaaaaaaa").data)))
        with raw_text := some (("aaaaaaaaaaaa").data) } :=
  ⟨by decide, clean_entry_strategy_selection (("aaaaaaaaaaaa").data) (by decide)⟩

/-- C3 counterexample: on the raw text "x" (shorter than 10 characters),
`clean_entry` short-circuits to a confidence-0 entry without running the
strategies, while the selection rule of the claim would pick the
author-year result, whose confidence is at least 0.3; hence the original
claim is false for this input. -/
theorem clean_entry_selection_counterexample :
    (clean_entry (("x").data)).confidence = 0 ∧
    (3 : ℚ)/10 ≤ (claimSelection (parse_ieee_style (normalize_text (("x").data)))
        (parse_apa_style (normalize_text (("x").data)))
        (parse_author_year_style (normalize_text (("x").data)))
        (parse_fallback (normalize_text (("x").data)))).confidence ∧
    clean_entry (("x").data) ≠
      { claimSelection (parse_ieee_style (normalize_text (("x").data)))
          (parse_apa_style (normalize_text (("x").data)))
          (parse_author_year_style (normalize_text (("x").data)))
          (parse_fallback (normalize_text (("x").data)))
        with raw_text := some (("x").data) } := by
  have hc : (clean_entry (("x").data)).confidence = 0 := by
    unfold clean_entry
    rw [if_pos (by decide :
      ((("x").data).isEmpty || decide ((stripWs (("x").data)).length < 10)) = true)]
    show (0.0 : ℚ) = 0
    norm_num
  have hsel := claimSelection_conf_ge (parse_ieee_style (normalize_text (("x").data)))
    (parse_apa_style (normalize_text (("x").data)))
    (parse_author_year_style (normalize_text (("x").data)))
    (parse_fallback (normalize_text (("x").data)))
    (parse_author_year_conf_ge (normalize_text (("x").data)))
  refine ⟨hc, hsel, fun heq => ?_⟩
  have hconf := congrArg CleanBibEntry.confidence heq
  rw [hc] at hconf
  have hre : ({ claimSelection (parse_ieee_style (normalize_text (("x").data)))
      (parse_apa_style (normalize_text (("x").data)))
      (parse_author_year_style (normalize_text (("x").data)))
      (parse_fallback (normalize_text (("x").data)))
      with raw_text := some (("x").data) } : CleanBibEntry).confidence =
      (claimSelection (parse_ieee_style (normalize_text (("x").data)))
        (parse_apa_style (normalize_text (("x").data)))
        (parse_author_year_style (normalize_text (("x").data)))
        (parse_fallback (normalize_text (("x").data)))).confidence := rfl
  rw [hre] at hconf
  linarith

/-- C5. Amended: for raw texts that pass the length guard (nonempty and at
least 10 characters after stripping), the entry returned by `clean_entry`
has confidence at least 0.1 — even when no year, title, publisher or
author could be extracted, since the author-year strategy contributes a
0.3 base — and its `raw_text` field is the unchanged input. The original
claim over every raw text fails on short inputs, which get confidence
0.0 (see the counterexample). -/
theorem clean_entry_confidence_floor (raw : LC)
    (h : (raw.isEmpty || decide ((stripWs raw).length < 10)) = false) :
    (1 : ℚ)/10 ≤ (clean_entry raw).confidence ∧
    (clean_entry raw).raw_text = some raw := by
  rw [clean_entry_eq_selection raw h]
  refine ⟨?_, rfl⟩
  have hsel := claimSelection_conf_ge (parse_ieee_style (normalize_text raw))
    (parse_apa_style (normalize_text raw))
    (parse_author_year_style (normalize_text raw))
    (parse_fallback (normalize_text raw))
    (parse_author_year_conf_ge (normalize_text raw))
  have hre : ({ claimSelection (parse_ieee_style (normalize_text raw))
      (parse_apa_style (normalize_text raw))
      (parse_author_year_style (normalize_text raw))
      (parse_fallback (normalize_text raw))
      with raw_text := some raw } : CleanBibEntry).confidence =
      (claimSelection (parse_ieee_style (normalize_text raw))
        (parse_apa_style (normalize_text raw))
        (parse_author_year_style (normalize_text raw))
        (parse_fallback (normalize_text raw))).confidence := rfl
  rw [hre]
  linarith

theorem clean_entry_confidence_floor_witness :
    (((("bbbbbbbbbbbb").data).isEmpty ||
        decide ((stripWs (("bbbbbbbbbbbb").data)).length < 10)) = false) ∧
    ((1 : ℚ)/10 ≤ (clean_entry (("bbbbbbbbbbbb").data)).confidence ∧
      (clean_entry (("bbbbbbbbbbbb").data)).raw_text = some (("bbbbbbbbbbbb").data)) :=
  ⟨by decide, clean_entry_confidence_floor (("bbbbbbbbbbbb").data) (by decide)⟩

/-- C5 counterexample: the raw text "short" is shorter than 10 characters,
so `clean_entry` returns an entry of confidence 0.0, below the claimed
floor of 0.1 (its `raw_text` is still the input). -/
theorem clean_entry_low_confidence_counterexample :
    (clean_entry (("short").data)).confidence = 0 ∧
    ¬ (1 : ℚ)/10 ≤ (clean_entry (("short").data)).confidence := by
  have hc : (clean_entry (("short").data)).confidence = 0 := by
    unfold clean_entry
    rw [if_pos (by decide :
      ((("short").data).isEmpty || decide ((stripWs (("short").data)).length < 10)) = true)]
    show (0.0 : ℚ) = 0
    norm_num
  refine ⟨hc, ?_⟩
  rw [hc]
  norm_num

/-- The concrete IEEE-style test entry of the specification. -/
def smithEntry : LC := ("Smith, J., \"Deep Learning Basics\", MIT Press, 2019.").data

/-- C6: on the text `Smith, J., "Deep Learning Basics", MIT Press, 2019.`
the IEEE-like strategy matches and returns confidence 0.95, year 2019,
publisher "MIT Press" and title "Deep Learning Basics". -/
theorem ieee_on_smith_deterministic :
    (parse_ieee_style smithEntry).confidence = 0.95 ∧
    (parse_ieee_style smithEntry).year = some 2019 ∧
    (parse_ieee_style smithEntry).publisher = some (("MIT Press").data) ∧
    (parse_ieee_style smithEntry).title = some (("Deep Learning Basics").data) := by
  have hm : ieeeScanK smithEntry ((smithEntry.takeWhile (· ≠ '"'))).length =
      some ((("Smith, J.").data), (("Deep Learning Basics").data),
        (("MIT Press").data), 2019) := by decide
  unfold parse_ieee_style
  rw [hm]
  exact ⟨rfl, rfl, by decide, by decide⟩
